import Mathlib

/-!
# The sharded store aggregator of `multistore.cc`

A shallow embedding of `multistore_ptr_t<protocol_t>` and of the backfill
rendezvous class `multistore_send_backfill_should_backfill_t`.

Conventions of the embedding.

* The template parameter `protocol_t` is a structure of types and operations
  (`protocol_t` below); regions are finite sets of keys.
* `pmap(n, f)` runs `n` tasks concurrently.  A task body touches the shared
  state of its call (response vector, combined map, coordinator) in one
  non-suspending stretch, so a run of `pmap` is a schedule: the list of task
  indices in the order in which the stretches end, folded over the shared
  state.  Theorems quantify over all schedules that are permutations of
  `0 .. n-1`.
* The stretches of `get_all_metainfos` and `read` run on the thread of the
  caller and those of the backfill rendezvous on the thread of the coordinator,
  one after the other.  `single_shard_write` is the exception: it appends to
  the response vector while it is on the home thread of its store, without a
  lock, so appends of stores on different threads can run at the same time; a
  run of `write` has the further parameter `overlap` that tells which appends
  did.
* A `signal_t` is pulsed at most once; a logical clock counts the tasks of
  the current fan-out that have finished, and the signal records the clock
  value from which on it is pulsed.
* `guarantee` and `rassert` failures end a call with `outcome.aborted`
  (the debug build, which also carries the `DEBUG_ONLY` metainfo checker).
* Exceptions are the `outcome.interrupted` result.
* Two pieces of ghost state make the effects of a call visible: the record
  `fanout_t.log` of what each task did with its store and its FIFO token, and
  the list `invocations` of the calls of the caller's `should_backfill`.
* The headers the file includes (protocol, region maps, store views, `pmap`,
  signals, promises) are not part of it; what the aggregator uses of them is
  modelled from the specification and marked so.
-/

namespace Multistore

/-- How a call of the aggregator ends: a normal result, `interrupted_exc_t`,
a failed `guarantee`/`rassert`, or never (a task of the fan-out waits on a
promise that nobody pulses, so `pmap` does not join). -/
inductive outcome (α : Type) where
  | ok (a : α)
  | interrupted
  | aborted
  | blocked
  deriving DecidableEq

/-- Sequencing of calls that may throw or abort. -/
def outcome.bind {α β : Type} (x : outcome α) (f : α → outcome β) : outcome β :=
  match x with
  | .ok a => f a
  | .interrupted => .interrupted
  | .aborted => .aborted
  | .blocked => .blocked

/-! ## Region algebra and region maps -/

section region

variable {κ : Type} [DecidableEq κ]

/-- Modelled from the spec: `region_intersection` of the region algebra
(protocol headers); a region is a finite set of keys. -/
def region_intersection (a b : Finset κ) : Finset κ := a ∩ b

/-- Modelled from the spec: `region_is_empty` of the region algebra. -/
def region_is_empty (a : Finset κ) : Bool := decide (a = ∅)

/-- Modelled from the spec: `region_is_superset(a, b)`, the order `b ⊆ a`. -/
def region_is_superset (a b : Finset κ) : Bool := decide (b ⊆ a)

/-- Modelled from the spec: `region_overlaps` of the region algebra. -/
def region_overlaps (a b : Finset κ) : Bool :=
  !region_is_empty (region_intersection a b)

/-- Modelled from the spec: `RegionMap<V>`, a mapping from the points of its
domain to values (`region_map_t` lives in the protocol headers). -/
def region_map_t (κ V : Type) : Type := κ → Option V

/-- Modelled from the spec: the constructor `region_map_t(region, value)`, the
map over `region` that holds `value` everywhere. -/
def region_map_t.init {V : Type} (r : Finset κ) (v : V) : region_map_t κ V :=
  fun k => if k ∈ r then some v else none

/-- Modelled from the spec: `get_domain()`. -/
def region_map_t.get_domain {V : Type} [Fintype κ] (m : region_map_t κ V) : Finset κ :=
  Finset.univ.filter (fun k => (m k).isSome)

/-- Modelled from the spec: `mask(r)` restricts the domain to `r ∩ D`. -/
def region_map_t.mask {V : Type} (m : region_map_t κ V) (r : Finset κ) : region_map_t κ V :=
  fun k => if k ∈ r then m k else none

/-- Modelled from the spec: `update(m)` overwrites on `m.get_domain()`. -/
def region_map_t.update {V : Type} (m n : region_map_t κ V) : region_map_t κ V :=
  fun k => match n k with
    | some v => some v
    | none => m k

/-- Modelled from the spec: `transform(f)`, the same domain with `f` applied
to every value (`region_map_transform`). -/
def region_map_transform {V U : Type} (m : region_map_t κ V) (f : V → U) : region_map_t κ U :=
  fun k => (m k).map f

/-- Modelled from the spec: `metainfo_checker_t`, of which the aggregator
uses only `mask`; it carries its callback and the region it checks. -/
structure metainfo_checker_t (κ : Type) where
  callback : Nat
  region : Finset κ

/-- Modelled from the spec: `metainfo_checker_t::mask`. -/
def metainfo_checker_t.mask (c : metainfo_checker_t κ) (r : Finset κ) : metainfo_checker_t κ :=
  { callback := c.callback, region := region_intersection r c.region }

/-- Modelled from the spec: `metainfo_checker_t::get_domain`. -/
def metainfo_checker_t.get_domain (c : metainfo_checker_t κ) : Finset κ := c.region

end region

/-! ## Signals and promises -/

/-- A `signal_t`: `pulse_time = some t` when the signal is pulsed from clock
value `t` on, `none` when it is never pulsed. -/
structure signal_t where
  pulse_time : Option Nat
  deriving DecidableEq

/-- Evaluates `signal_t::is_pulsed()` at clock value `now`. -/
def signal_t.is_pulsed (s : signal_t) (now : Nat) : Bool :=
  match s.pulse_time with
  | some t => decide (t ≤ now)
  | none => false

/-- A `cross_thread_signal_t` mirrors its source signal on another thread:
it is pulsed exactly when the source is. -/
def cross_thread_signal_t (interruptor : signal_t) (_dest_thread : Nat) : signal_t :=
  interruptor

/-- A `promise_t<bool>`: unset, or pulsed with a value. -/
abbrev promise_t := Option Bool

/-- Assigns the value: `promise_t::pulse`. -/
def promise_t.pulse (_p : promise_t) (v : Bool) : promise_t := some v

/-- Tells whether the value was assigned: `promise_t::is_pulsed`. -/
def promise_t.is_pulsed (p : promise_t) : Bool := p.isSome

/-- What a waiter of `promise_t::wait` gets: the value once it is assigned,
`none` while (and so, if never assigned, forever) it has to wait. -/
def promise_t.wait (p : promise_t) : Option Bool := p

/-! ## The protocol -/

/-- The template parameter `protocol_t`: the request, response and chunk
types with their `shard`/`unshard` algebra, the blob and version types of
the metainfo, and `cpu_sharding_subspace`.

Modelled from the spec: the protocol headers are not part of the file; the
two laws are the spec's description of `cpu_sharding_subspace(i, N)` as a
deterministic split of the key space into `N` disjoint sub-regions. -/
structure protocol_t (κ : Type) [DecidableEq κ] where
  read_t : Type
  read_response_t : Type
  write_t : Type
  write_response_t : Type
  backfill_chunk_t : Type
  binary_blob_t : Type
  binary_blob_default : binary_blob_t
  version_range_t : Type
  version_range_default : version_range_t
  blob_get : binary_blob_t → version_range_t
  cpu_sharding_subspace : Nat → Nat → Finset κ
  read_get_region : read_t → Finset κ
  read_shard : read_t → Finset κ → read_t
  read_multistore_unshard : read_t → List read_response_t → read_response_t
  write_get_region : write_t → Finset κ
  write_shard : write_t → Finset κ → write_t
  write_multistore_unshard : write_t → List write_response_t → write_response_t
  chunk_get_region : backfill_chunk_t → Finset κ
  chunk_shard : backfill_chunk_t → Finset κ → backfill_chunk_t
  subspace_disjoint : ∀ n i j, i < n → j < n → i ≠ j →
    Disjoint (cpu_sharding_subspace i n) (cpu_sharding_subspace j n)
  subspace_cover : ∀ n k, 0 < n → ∃ i, i < n ∧ k ∈ cpu_sharding_subspace i n

/-! ## Store views -/

section stores

variable {κ : Type} [DecidableEq κ]

/-- The operations of a `store_view_t` that take an interruptor. -/
inductive store_op where
  | get_metainfo
  | set_metainfo
  | read
  | write
  | send_backfill
  | receive_backfill
  | reset_data
  deriving DecidableEq

/-- Modelled from the spec: an underlying `StoreView` (the store engine is
not part of the file).  It holds the metainfo last set on it; `raises op p`
tells whether its operation `op` ends in `interrupted_exc_t` when the signal
handed to it has pulse state `p`; the remaining fields are the answers it
gives. -/
structure store_t (P : protocol_t κ) where
  home_thread : Nat
  region : Finset κ
  metainfo : region_map_t κ P.binary_blob_t
  raises : store_op → Bool → Bool
  read_response : metainfo_checker_t κ → P.read_t → Nat → P.read_response_t
  write_response : metainfo_checker_t κ → region_map_t κ P.binary_blob_t → P.write_t →
    Nat → Nat → P.write_response_t
  backfill_metainfo : region_map_t κ Nat → region_map_t κ P.binary_blob_t
  backfill_chunks : region_map_t κ Nat → List P.backfill_chunk_t

/-- The `store_view_t` class hierarchy as far as the aggregator meets it: an
underlying store, or a `store_subview_t` around another view.

Modelled from the spec: `StoreSubview`, a `StoreView` paired with a fixed
sub-region; what is forwarded to the underlying store is first clipped to
that sub-region. -/
inductive store_view_t (P : protocol_t κ) where
  | store (s : store_t P)
  | subview (inner : store_view_t P) (region : Finset κ)

namespace store_view_t

variable {P : protocol_t κ}

/-- Thread a view lives on: `home_thread()`. -/
def home_thread : store_view_t P → Nat
  | store s => s.home_thread
  | subview inner _ => inner.home_thread

/-- Region a view covers: `get_region()`. -/
def get_region : store_view_t P → Finset κ
  | store s => s.region
  | subview _ r => r

/-- Tells whether operation `op` of the view ends in `interrupted_exc_t`. -/
def raises : store_view_t P → store_op → Bool → Bool
  | store s, op, p => s.raises op p
  | subview inner _, op, p => inner.raises op p

/-- Modelled from the spec: `get_metainfo`; `pulsed` is the state of the
interruptor handed to the call. -/
def get_metainfo : store_view_t P → Bool → outcome (region_map_t κ P.binary_blob_t)
  | store s, p => if s.raises .get_metainfo p then .interrupted else .ok s.metainfo
  | subview inner r, p => (inner.get_metainfo p).bind (fun m => .ok (m.mask r))

/-- Modelled from the spec: `set_metainfo`; returns the view after the call. -/
def set_metainfo : store_view_t P → region_map_t κ P.binary_blob_t → Bool →
    outcome (store_view_t P)
  | store s, m, p =>
    if s.raises .set_metainfo p then .interrupted else .ok (store { s with metainfo := m })
  | subview inner r, m, p =>
    (inner.set_metainfo (m.mask r) p).bind (fun inner2 => .ok (subview inner2 r))

/-- Modelled from the spec: `read`. -/
def read : store_view_t P → metainfo_checker_t κ → P.read_t → Nat → Bool →
    outcome P.read_response_t
  | store s, c, r, o, p => if s.raises .read p then .interrupted else .ok (s.read_response c r o)
  | subview inner rg, c, r, o, p => inner.read (c.mask rg) r o p

/-- Modelled from the spec: `write`. -/
def write : store_view_t P → metainfo_checker_t κ → region_map_t κ P.binary_blob_t →
    P.write_t → Nat → Nat → Bool → outcome P.write_response_t
  | store s, c, nm, w, t, o, p =>
    if s.raises .write p then .interrupted else .ok (s.write_response c nm w t o)
  | subview inner rg, c, nm, w, t, o, p => inner.write (c.mask rg) (nm.mask rg) w t o p

/-- Modelled from the spec: the metainfo a view hands to the `should_backfill`
callback of its `send_backfill`, or `none` when the call ends in
`interrupted_exc_t` before it has called the callback. -/
def send_backfill_metainfo : store_view_t P → region_map_t κ Nat → Bool →
    Option (region_map_t κ P.binary_blob_t)
  | store s, sp, p => if s.raises .send_backfill p then none else some (s.backfill_metainfo sp)
  | subview inner rg, sp, p =>
    (inner.send_backfill_metainfo (sp.mask rg) p).map (fun m => m.mask rg)

/-- Modelled from the spec: the chunks a view streams to the chunk callback of
its `send_backfill` once `should_backfill` has answered `true`. -/
def send_backfill_chunks : store_view_t P → region_map_t κ Nat → List P.backfill_chunk_t
  | store s, sp => s.backfill_chunks sp
  | subview inner rg, sp => (inner.send_backfill_chunks (sp.mask rg)).map (fun c => P.chunk_shard
      c rg)

end store_view_t

end stores

/-! ## The aggregator -/

section aggregator

variable {κ : Type} [DecidableEq κ]

/-- Modelled from the spec: `pmap(n, f)` launches the `n` tasks `f(0)`, ...,
`f(n-1)` and returns when all of them have ended; `sched` is the order in
which the tasks act on the shared state `s`. -/
def pmap {σ : Type} (sched : List Nat) (f : Nat → σ → σ) (s : σ) : σ :=
  sched.foldl (fun st i => f i st) s

/-- What a task of a fan-out does with its store and its FIFO token:
`token_reset` is `tokens[i].reset()` without any call of the store, every
other constructor is the call of that operation on `store_views[i]`, with the
arguments it is given (the token `tokens[i]` goes with the call). -/
inductive store_call_t (P : protocol_t κ) where
  | token_reset
  | get_metainfo (order_token : Nat)
  | set_metainfo (new_metainfo : region_map_t κ P.binary_blob_t) (order_token : Nat)
  | read (checker : metainfo_checker_t κ) (read : P.read_t) (order_token : Nat)
  | write (checker : metainfo_checker_t κ) (new_metainfo : region_map_t κ P.binary_blob_t)
      (write : P.write_t) (timestamp : Nat) (order_token : Nat)
  | send_backfill (start_point : region_map_t κ Nat)
  | receive_backfill (chunk : P.backfill_chunk_t)
  | reset_data (subregion : Finset κ) (new_metainfo : region_map_t κ P.binary_blob_t)

/-- The regions carried by the arguments of a call on a store. -/
def store_call_t.regions [Fintype κ] {P : protocol_t κ} : store_call_t P → List (Finset κ)
  | .token_reset => []
  | .get_metainfo _ => []
  | .set_metainfo m _ => [m.get_domain]
  | .read c r _ => [c.get_domain, P.read_get_region r]
  | .write c nm w _ _ => [c.get_domain, nm.get_domain, P.write_get_region w]
  | .send_backfill sp => [sp.get_domain]
  | .receive_backfill c => [P.chunk_get_region c]
  | .reset_data sub nm => [sub, nm.get_domain]

/-- The shared state of one fan-out: the logical clock, the record of what
the tasks did with their stores and tokens (shard index first), whether an
exception left a task, and the data the tasks build together. -/
structure fanout_t (P : protocol_t κ) (α : Type) where
  now : Nat
  log : List (Nat × store_call_t P)
  raised : Bool
  acc : α

/-- The state a fan-out starts from. -/
def fanout_t.start {P : protocol_t κ} {α : Type} (a : α) : fanout_t P α :=
  { now := 0, log := [], raised := false, acc := a }

/-- A task has ended after doing `c` on shard `i`. -/
def fanout_t.step {P : protocol_t κ} {α : Type} (st : fanout_t P α) (i : Nat)
    (c : store_call_t P) : fanout_t P α :=
  { st with now := st.now + 1, log := st.log ++ [(i, c)] }

/-- The class `multistore_ptr_t<protocol_t>`: the array `store_views` and the
joined `region`. -/
structure multistore_ptr_t (P : protocol_t κ) where
  store_views : List (store_view_t P)
  region : Finset κ

variable {P : protocol_t κ}

/-- Number of shards: `num_stores()`. -/
def multistore_ptr_t.num_stores (M : multistore_ptr_t P) : Nat := M.store_views.length

/-- The task `do_initialize` for one slot: a `store_subview_t` around the given
view, over the intersection of the region with the region of that view. -/
def do_initialize_slot (_region : Finset κ) (sv : store_view_t P) : store_view_t P :=
  .subview sv (region_intersection _region sv.get_region)

/-- The member `initialize`: the fan-out of `do_initialize`; task `i` writes
slot `i` only, so the array after the join is the same for every schedule. -/
def initialize_store_views (_store_views : List (store_view_t P)) (_region : Finset κ) :
    List (store_view_t P) :=
  _store_views.map (do_initialize_slot _region)

/-- The first constructor, from the array `_store_views`, of which it reads
the first `num_store_views` entries, and a region. -/
def multistore_ptr_t.create (_store_views : List (store_view_t P)) (num_store_views : Nat)
    (_region : Finset κ) : multistore_ptr_t P :=
  { store_views := initialize_store_views (_store_views.take num_store_views) _region,
    region := _region }

/-- The second constructor, which narrows `inner` to `_region`. -/
def multistore_ptr_t.narrow (inner : multistore_ptr_t P) (_region : Finset κ) :
    outcome (multistore_ptr_t P) :=
  if region_is_superset inner.region _region then
    .ok { store_views := initialize_store_views inner.store_views _region, region := _region }
  else .aborted

/-- The aggregators the two constructors can produce: one made from an array
of store views, or one made by narrowing such an aggregator. -/
inductive multistore_ptr_t.constructed : multistore_ptr_t P → Prop where
  | create (_store_views : List (store_view_t P)) (num_store_views : Nat)
      (_region : Finset κ) :
      constructed (multistore_ptr_t.create _store_views num_store_views _region)
  | narrow (inner : multistore_ptr_t P) (_region : Finset κ) (M : multistore_ptr_t P) :
      constructed inner → inner.narrow _region = .ok M → constructed M

/-- Region of the aggregator: `get_multistore_joined_region()`. -/
def multistore_ptr_t.get_multistore_joined_region (M : multistore_ptr_t P) : Finset κ :=
  M.region

/-- Region of shard `i`: `get_region(i)`.  Its `guarantee(0 <= i && i < num_stores())`
holds at every call of this file, `pmap` passing only such `i`. -/
def multistore_ptr_t.get_region (M : multistore_ptr_t P) (i : Nat) : Finset κ :=
  region_intersection M.region (P.cpu_sharding_subspace i M.num_stores)

/-! ### Metainfo -/

/-- The task `do_get_a_metainfo`; `st.acc` is the `updatee`. -/
def multistore_ptr_t.do_get_a_metainfo (M : multistore_ptr_t P) (i : Nat) (order_token : Nat)
    (interruptor : signal_t) (st : fanout_t P (region_map_t κ P.version_range_t)) :
    fanout_t P (region_map_t κ P.version_range_t) :=
  match M.store_views[i]? with
  | none => st
  | some sv =>
    let dest_thread := sv.home_thread
    let ct_interruptor := cross_thread_signal_t interruptor dest_thread
    match sv.get_metainfo (ct_interruptor.is_pulsed st.now) with
    | .ok metainfo =>
      let masked_metainfo := metainfo.mask (M.get_region i)
      let transformed := region_map_transform masked_metainfo P.blob_get
      { st.step i (.get_metainfo order_token) with acc := st.acc.update transformed }
    | _ => { st.step i (.get_metainfo order_token) with raised := true }

/-- The state of the fan-out of `get_all_metainfos` at its join. -/
def multistore_ptr_t.get_all_metainfos_fanout (M : multistore_ptr_t P) (order_token : Nat)
    (interruptor : signal_t) (sched : List Nat) :
    fanout_t P (region_map_t κ P.version_range_t) :=
  pmap sched (fun i => M.do_get_a_metainfo i order_token interruptor)
    (fanout_t.start (region_map_t.init M.get_multistore_joined_region P.version_range_default))

/-- The member `get_all_metainfos`.  An exception that leaves a task is passed
on by `pmap` after the join; the interruptor is not looked at after the join. -/
def multistore_ptr_t.get_all_metainfos [Fintype κ] (M : multistore_ptr_t P) (order_token : Nat)
    (num_read_tokens : Nat) (interruptor : signal_t) (sched : List Nat) :
    outcome (region_map_t κ P.version_range_t) :=
  if M.num_stores ≠ num_read_tokens then .aborted
  else
    let st := M.get_all_metainfos_fanout order_token interruptor sched
    if st.raised then .interrupted
    else if st.acc.get_domain ≠ M.region then .aborted
    else .ok st.acc

/-- The task `do_set_a_metainfo`; `st.acc` is the array of store views, whose
slot `i` the call changes. -/
def multistore_ptr_t.do_set_a_metainfo (M : multistore_ptr_t P) (i : Nat)
    (new_metainfo : region_map_t κ P.binary_blob_t) (order_token : Nat)
    (interruptor : signal_t) (st : fanout_t P (List (store_view_t P))) :
    fanout_t P (List (store_view_t P)) :=
  match st.acc[i]? with
  | none => st
  | some sv =>
    let dest_thread := sv.home_thread
    let ct_interruptor := cross_thread_signal_t interruptor dest_thread
    let arg := new_metainfo.mask (M.get_region i)
    match sv.set_metainfo arg (ct_interruptor.is_pulsed st.now) with
    | .ok sv2 => { st.step i (.set_metainfo arg order_token) with acc := st.acc.set i sv2 }
    | _ => { st.step i (.set_metainfo arg order_token) with raised := true }

/-- The state of the fan-out of `set_all_metainfos` at its join. -/
def multistore_ptr_t.set_all_metainfos_fanout (M : multistore_ptr_t P)
    (new_metainfo : region_map_t κ P.binary_blob_t) (order_token : Nat)
    (interruptor : signal_t) (sched : List Nat) : fanout_t P (List (store_view_t P)) :=
  pmap sched (fun i => M.do_set_a_metainfo i new_metainfo order_token interruptor)
    (fanout_t.start M.store_views)

/-- The member `set_all_metainfos`: the aggregator after the call (the stores
keep what was set on them, also when the call ends in an exception) and how
the call ends. -/
def multistore_ptr_t.set_all_metainfos (M : multistore_ptr_t P)
    (new_metainfo : region_map_t κ P.binary_blob_t) (order_token : Nat)
    (num_write_tokens : Nat) (interruptor : signal_t) (sched : List Nat) :
    multistore_ptr_t P × outcome Unit :=
  if num_write_tokens ≠ M.num_stores then (M, .aborted)
  else
    let st := M.set_all_metainfos_fanout new_metainfo order_token interruptor sched
    ({ M with store_views := st.acc }, if st.raised then .interrupted else .ok ())

/-! ### Sending a backfill -/

/-- The class `multistore_send_backfill_should_backfill_t`, the rendezvous of
the per-shard `should_backfill` callbacks.  `invocations` is a ghost field:
the calls of `should_backfill_func_` so far, each with its argument and the
value it returned. -/
structure multistore_send_backfill_should_backfill_t (P : protocol_t κ) where
  countdown_ : Int
  combined_metainfo_ : region_map_t κ P.binary_blob_t
  result_promise_ : promise_t
  invocations : List (region_map_t κ P.binary_blob_t × Bool)

namespace multistore_send_backfill_should_backfill_t

/-- The constructor of the rendezvous. -/
def create (num_stores : Nat) (start_point_region : Finset κ) :
    multistore_send_backfill_should_backfill_t P :=
  { countdown_ := (num_stores : Int),
    combined_metainfo_ := region_map_t.init start_point_region P.binary_blob_default,
    result_promise_ := none,
    invocations := [] }

/-- The member `should_backfill` up to its wait on the promise: the state
after a per-shard handler has arrived with `metainfo`. -/
def should_backfill (should_backfill_func_ : region_map_t κ P.binary_blob_t → Bool)
    (h : multistore_send_backfill_should_backfill_t P)
    (metainfo : region_map_t κ P.binary_blob_t) :
    outcome (multistore_send_backfill_should_backfill_t P) :=
  let combined := h.combined_metainfo_.update metainfo
  let countdown := h.countdown_ - 1
  if countdown < 0 then .aborted
  else if countdown = 0 then
    let tmp := should_backfill_func_ combined
    .ok { countdown_ := countdown, combined_metainfo_ := combined,
          result_promise_ := h.result_promise_.pulse tmp,
          invocations := h.invocations ++ [(combined, tmp)] }
  else
    .ok { h with countdown_ := countdown, combined_metainfo_ := combined }

/-- The end of the member `should_backfill`: what `result_promise_.wait()`
gives the handler, `none` as long as it waits. -/
def should_backfill_result (h : multistore_send_backfill_should_backfill_t P) : Option Bool :=
  h.result_promise_.wait

/-- The member `get_result`. -/
def get_result (h : multistore_send_backfill_should_backfill_t P) : outcome Bool :=
  if h.result_promise_.is_pulsed then
    match h.result_promise_.wait with
    | some v => .ok v
    | none => .blocked
  else .aborted

/-- The rendezvous after the handlers of `metainfos` have arrived, in the
order of the list. -/
def arrivals (should_backfill_func_ : region_map_t κ P.binary_blob_t → Bool)
    (h : multistore_send_backfill_should_backfill_t P)
    (metainfos : List (region_map_t κ P.binary_blob_t)) :
    outcome (multistore_send_backfill_should_backfill_t P) :=
  metainfos.foldl (fun o m => o.bind (fun h2 => should_backfill should_backfill_func_ h2 m))
    (.ok h)

end multistore_send_backfill_should_backfill_t

/-- The function `regionwrap_chunkfun`: the chunk handed to the caller. -/
def regionwrap_chunkfun (region : Finset κ) (chunk : P.backfill_chunk_t) : P.backfill_chunk_t :=
  P.chunk_shard chunk region

/-- What the tasks of `send_multistore_backfill` share: the rendezvous, and
the shards whose handler has arrived at it. -/
structure backfill_acc_t (P : protocol_t κ) where
  helper : outcome (multistore_send_backfill_should_backfill_t P)
  arrived : List Nat

/-- The task `single_shard_backfill` up to the wait of its handler on the
promise.  A store that ends in `interrupted_exc_t` before it calls the
handler leaves no arrival; the exception is caught. -/
def multistore_ptr_t.single_shard_backfill (M : multistore_ptr_t P) (i : Nat)
    (should_backfill : region_map_t κ P.binary_blob_t → Bool)
    (start_point : region_map_t κ Nat) (interruptor : signal_t)
    (st : fanout_t P (backfill_acc_t P)) : fanout_t P (backfill_acc_t P) :=
  match M.store_views[i]? with
  | none => st
  | some store =>
    let dest_thread := store.home_thread
    let ct_interruptor := cross_thread_signal_t interruptor dest_thread
    let arg := start_point.mask (M.get_region i)
    match store.send_backfill_metainfo arg (ct_interruptor.is_pulsed st.now) with
    | none => st.step i (.send_backfill arg)
    | some metainfo =>
      { st.step i (.send_backfill arg) with
        acc := { helper := st.acc.helper.bind
                   (fun h => h.should_backfill should_backfill metainfo),
                 arrived := st.acc.arrived ++ [i] } }

/-- The state of the fan-out of `send_multistore_backfill` when every task
has either arrived at the rendezvous or ended. -/
def multistore_ptr_t.send_multistore_backfill_fanout [Fintype κ] (M : multistore_ptr_t P)
    (start_point : region_map_t κ Nat)
    (should_backfill : region_map_t κ P.binary_blob_t → Bool)
    (interruptor : signal_t) (sched : List Nat) :
    fanout_t P (backfill_acc_t P) :=
  pmap sched (fun i => M.single_shard_backfill i should_backfill start_point interruptor)
    (fanout_t.start
      { helper := .ok (multistore_send_backfill_should_backfill_t.create M.num_stores
          start_point.get_domain),
        arrived := [] })

/-- The values the per-shard handlers return to their stores, shard index
first: every handler that has arrived gets the value of the promise. -/
def multistore_ptr_t.should_backfill_results [Fintype κ] (M : multistore_ptr_t P)
    (start_point : region_map_t κ Nat)
    (should_backfill : region_map_t κ P.binary_blob_t → Bool)
    (interruptor : signal_t) (sched : List Nat) :
    List (Nat × Option Bool) :=
  let st := M.send_multistore_backfill_fanout start_point should_backfill interruptor sched
  match st.acc.helper with
  | .ok h => st.acc.arrived.map (fun i => (i, h.should_backfill_result))
  | _ => []

/-- The chunks the caller's `chunk_fun` receives from shard `i`: those its
store streams when its handler got `true`, each through `regionwrap_chunkfun`. -/
def multistore_ptr_t.backfill_chunks_of [Fintype κ] (M : multistore_ptr_t P)
    (start_point : region_map_t κ Nat)
    (should_backfill : region_map_t κ P.binary_blob_t → Bool)
    (interruptor : signal_t) (sched : List Nat) (i : Nat) :
    List P.backfill_chunk_t :=
  match M.store_views[i]? with
  | none => []
  | some store =>
    if (i, some true) ∈ M.should_backfill_results start_point should_backfill interruptor sched then
      (store.send_backfill_chunks (start_point.mask (M.get_region i))).map
        (regionwrap_chunkfun (M.get_region i))
    else []

/-- The member `send_multistore_backfill`.  When a handler waits on a promise
that is not pulsed the fan-out never joins. -/
def multistore_ptr_t.send_multistore_backfill [Fintype κ] (M : multistore_ptr_t P)
    (start_point : region_map_t κ Nat)
    (should_backfill : region_map_t κ P.binary_blob_t → Bool)
    (num_read_tokens : Nat)
    (interruptor : signal_t) (sched : List Nat) : outcome Bool :=
  if M.num_stores ≠ num_read_tokens then .aborted
  else if !region_is_superset M.get_multistore_joined_region start_point.get_domain then
    .aborted
  else
    let st := M.send_multistore_backfill_fanout start_point should_backfill interruptor sched
    st.acc.helper.bind (fun helper =>
      if !st.acc.arrived.isEmpty && !helper.result_promise_.is_pulsed then .blocked
      else if interruptor.is_pulsed st.now then .interrupted
      else helper.get_result)

/-! ### Receiving a backfill, reading, writing, resetting -/

/-- The task `single_shard_receive_backfill`. -/
def multistore_ptr_t.single_shard_receive_backfill (M : multistore_ptr_t P) (i : Nat)
    (chunk : P.backfill_chunk_t) (interruptor : signal_t) (st : fanout_t P Unit) :
    fanout_t P Unit :=
  let ith_intersection := region_intersection (M.get_region i) (P.chunk_get_region chunk)
  match M.store_views[i]? with
  | none => st
  | some store =>
    let dest_thread := store.home_thread
    if region_is_empty ith_intersection then
      st.step i .token_reset
    else
      let ct_interruptor := cross_thread_signal_t interruptor dest_thread
      let _caught := store.raises .receive_backfill (ct_interruptor.is_pulsed st.now)
      st.step i (.receive_backfill (P.chunk_shard chunk ith_intersection))

/-- The state of the fan-out of `receive_backfill` at its join. -/
def multistore_ptr_t.receive_backfill_fanout (M : multistore_ptr_t P)
    (chunk : P.backfill_chunk_t) (interruptor : signal_t) (sched : List Nat) : fanout_t P Unit :=
  pmap sched (fun i => M.single_shard_receive_backfill i chunk interruptor) (fanout_t.start ())

/-- The member `receive_backfill`. -/
def multistore_ptr_t.receive_backfill (M : multistore_ptr_t P) (chunk : P.backfill_chunk_t)
    (num_stores_assertion : Nat) (interruptor : signal_t) (sched : List Nat) : outcome Unit :=
  if M.num_stores ≠ num_stores_assertion then .aborted
  else if !region_is_superset M.get_multistore_joined_region (P.chunk_get_region chunk) then
    .aborted
  else
    let st := M.receive_backfill_fanout chunk interruptor sched
    if interruptor.is_pulsed st.now then .interrupted else .ok ()

/-- The task `single_shard_read`; `st.acc` is the vector `responses`, to which
the task appends after it has left its `on_thread_t` block, back on the thread
of the caller, where the tasks take turns. -/
def multistore_ptr_t.single_shard_read (M : multistore_ptr_t P) (i : Nat)
    (metainfo_checker : metainfo_checker_t κ) (read : P.read_t) (order_token : Nat)
    (interruptor : signal_t) (st : fanout_t P (List P.read_response_t)) :
    fanout_t P (List P.read_response_t) :=
  let ith_region := M.get_region i
  let ith_intersection := region_intersection (M.get_region i) (P.read_get_region read)
  match M.store_views[i]? with
  | none => st
  | some store =>
    let dest_thread := store.home_thread
    if region_is_empty ith_intersection then
      st.step i .token_reset
    else
      let ct_interruptor := cross_thread_signal_t interruptor dest_thread
      let call := store_call_t.read (metainfo_checker.mask ith_region)
        (P.read_shard read ith_intersection) order_token
      match store.read (metainfo_checker.mask ith_region) (P.read_shard read ith_intersection)
          order_token (ct_interruptor.is_pulsed st.now) with
      | .ok response => { st.step i call with acc := st.acc ++ [response] }
      | _ => st.step i call

/-- The state of the fan-out of `read` at its join. -/
def multistore_ptr_t.read_fanout (M : multistore_ptr_t P)
    (metainfo_checker : metainfo_checker_t κ) (read : P.read_t) (order_token : Nat)
    (interruptor : signal_t) (sched : List Nat) : fanout_t P (List P.read_response_t) :=
  pmap sched (fun i => M.single_shard_read i metainfo_checker read order_token interruptor)
    (fanout_t.start [])

/-- The member `read`. -/
def multistore_ptr_t.read (M : multistore_ptr_t P) (metainfo_checker : metainfo_checker_t κ)
    (read : P.read_t) (order_token : Nat) (num_read_tokens : Nat) (interruptor : signal_t)
    (sched : List Nat) : outcome P.read_response_t :=
  if M.num_stores ≠ num_read_tokens then .aborted
  else
    let st := M.read_fanout metainfo_checker read order_token interruptor sched
    if interruptor.is_pulsed st.now then .interrupted
    else .ok (P.read_multistore_unshard read st.acc)

/-- The struct `new_and_metainfo_checker_t`. -/
structure new_and_metainfo_checker_t (P : protocol_t κ) where
  new_metainfo : region_map_t κ P.binary_blob_t
  metainfo_checker : metainfo_checker_t κ

/-- The vector `responses` of a `write` as the `push_back`s of the tasks leave
it, with two ghost fields for what a `push_back` that runs at the same time on
another thread still sees: the number of elements before the latest
`push_back` moved the end of the vector, and the thread that one ran on. -/
structure write_responses_t (P : protocol_t κ) where
  responses : List P.write_response_t
  end_before : Nat
  pushed_on : Option Nat

/-- The empty vector `responses` that `write` starts from. -/
def write_responses_t.empty : write_responses_t P :=
  { responses := [], end_before := 0, pushed_on := none }

/-- The call `responses->push_back(response)` of `single_shard_write`, which
runs on thread `thread`, the home thread of the store, and takes no lock.
`push_back` reads the end of the vector, puts the element there and moves the
end one past it.  The tasks of one thread take turns, so after a `push_back`
of the same thread it finds the end where that one left it.  Nothing orders it
with a `push_back` of another thread: with `overlap` set it has read the end
before the latest `push_back` moved it, the two elements go to the same place
and the end moves by one only. -/
def write_responses_t.push_back (v : write_responses_t P) (thread : Nat) (overlap : Bool)
    (response : P.write_response_t) : write_responses_t P :=
  let finish := match v.pushed_on with
    | some other =>
      if overlap && decide (other ≠ thread) then v.end_before else v.responses.length
    | none => v.responses.length
  { responses := v.responses.take finish ++ [response],
    end_before := v.responses.length,
    pushed_on := some thread }

/-- The task `single_shard_write`; `st.acc` is the vector `responses`, and
`overlap` tells whether the `push_back` of this task started before the latest
`push_back` into the vector had ended. -/
def multistore_ptr_t.single_shard_write (M : multistore_ptr_t P) (i : Nat)
    (metainfo : new_and_metainfo_checker_t P) (write : P.write_t) (timestamp : Nat)
    (order_token : Nat) (interruptor : signal_t) (overlap : Bool)
    (st : fanout_t P (write_responses_t P)) : fanout_t P (write_responses_t P) :=
  let ith_region := M.get_region i
  let ith_intersection := region_intersection ith_region (P.write_get_region write)
  match M.store_views[i]? with
  | none => st
  | some store =>
    let dest_thread := store.home_thread
    if region_is_empty ith_intersection then
      st.step i .token_reset
    else
      let ct_interruptor := cross_thread_signal_t interruptor dest_thread
      let call := store_call_t.write (metainfo.metainfo_checker.mask ith_region)
        (metainfo.new_metainfo.mask ith_region) (P.write_shard write ith_intersection)
        timestamp order_token
      match store.write (metainfo.metainfo_checker.mask ith_region)
          (metainfo.new_metainfo.mask ith_region) (P.write_shard write ith_intersection)
          timestamp order_token (ct_interruptor.is_pulsed st.now) with
      | .ok response =>
        { st.step i call with acc := st.acc.push_back dest_thread overlap response }
      | _ => st.step i call

/-- The state of the fan-out of `write` at its join; `overlap i` tells whether
the `push_back` of task `i` started before the latest `push_back` before it
had ended. -/
def multistore_ptr_t.write_fanout (M : multistore_ptr_t P)
    (metainfo_checker : metainfo_checker_t κ) (new_metainfo : region_map_t κ P.binary_blob_t)
    (write : P.write_t) (timestamp : Nat) (order_token : Nat) (interruptor : signal_t)
    (sched : List Nat) (overlap : Nat → Bool) : fanout_t P (write_responses_t P) :=
  pmap sched (fun i => M.single_shard_write i
      { new_metainfo := new_metainfo, metainfo_checker := metainfo_checker }
      write timestamp order_token interruptor (overlap i))
    (fanout_t.start write_responses_t.empty)

/-- The member `write`. -/
def multistore_ptr_t.write (M : multistore_ptr_t P) (metainfo_checker : metainfo_checker_t κ)
    (new_metainfo : region_map_t κ P.binary_blob_t) (write : P.write_t) (timestamp : Nat)
    (order_token : Nat) (num_stores_assertion : Nat) (interruptor : signal_t)
    (sched : List Nat) (overlap : Nat → Bool) : outcome P.write_response_t :=
  if M.num_stores ≠ num_stores_assertion then .aborted
  else
    let st := M.write_fanout metainfo_checker new_metainfo write timestamp order_token
      interruptor sched overlap
    if interruptor.is_pulsed st.now then .interrupted
    else .ok (P.write_multistore_unshard write st.acc.responses)

/-- The task `single_shard_reset_all_data`. -/
def multistore_ptr_t.single_shard_reset_all_data (M : multistore_ptr_t P) (i : Nat)
    (subregion : Finset κ) (new_metainfo : region_map_t κ P.binary_blob_t)
    (interruptor : signal_t) (st : fanout_t P Unit) : fanout_t P Unit :=
  match M.store_views[i]? with
  | none => st
  | some store =>
    let dest_thread := store.home_thread
    if !region_overlaps (M.get_region i) subregion then
      st.step i .token_reset
    else
      let ct_interruptor := cross_thread_signal_t interruptor dest_thread
      let _caught := store.raises .reset_data (ct_interruptor.is_pulsed st.now)
      st.step i (.reset_data (region_intersection subregion (M.get_region i))
        (new_metainfo.mask (M.get_region i)))

/-- The state of the fan-out of `reset_all_data` at its join. -/
def multistore_ptr_t.reset_all_data_fanout (M : multistore_ptr_t P) (subregion : Finset κ)
    (new_metainfo : region_map_t κ P.binary_blob_t) (interruptor : signal_t)
    (sched : List Nat) : fanout_t P Unit :=
  pmap sched (fun i => M.single_shard_reset_all_data i subregion new_metainfo interruptor)
    (fanout_t.start ())

/-- The member `reset_all_data`. -/
def multistore_ptr_t.reset_all_data (M : multistore_ptr_t P) (subregion : Finset κ)
    (new_metainfo : region_map_t κ P.binary_blob_t) (num_stores_assertion : Nat)
    (interruptor : signal_t) (sched : List Nat) : outcome Unit :=
  if M.num_stores ≠ num_stores_assertion then .aborted
  else
    let st := M.reset_all_data_fanout subregion new_metainfo interruptor sched
    if interruptor.is_pulsed st.now then .interrupted else .ok ()

/-! ### What a member function does to the stores

Every member function checks its `guarantee`s before it starts its fan-out,
so a call that fails one of them has made no call on a store and released no
token; otherwise the record of the call is the record of its fan-out. -/

/-- The record of a call of `get_all_metainfos`. -/
def multistore_ptr_t.get_all_metainfos_calls (M : multistore_ptr_t P) (order_token : Nat)
    (num_read_tokens : Nat) (interruptor : signal_t) (sched : List Nat) :
    List (Nat × store_call_t P) :=
  if M.num_stores ≠ num_read_tokens then []
  else (M.get_all_metainfos_fanout order_token interruptor sched).log

/-- The record of a call of `set_all_metainfos`. -/
def multistore_ptr_t.set_all_metainfos_calls (M : multistore_ptr_t P)
    (new_metainfo : region_map_t κ P.binary_blob_t) (order_token : Nat)
    (num_write_tokens : Nat) (interruptor : signal_t) (sched : List Nat) :
    List (Nat × store_call_t P) :=
  if num_write_tokens ≠ M.num_stores then []
  else (M.set_all_metainfos_fanout new_metainfo order_token interruptor sched).log

/-- The record of a call of `send_multistore_backfill`. -/
def multistore_ptr_t.send_multistore_backfill_calls [Fintype κ] (M : multistore_ptr_t P)
    (start_point : region_map_t κ Nat)
    (should_backfill : region_map_t κ P.binary_blob_t → Bool)
    (num_read_tokens : Nat) (interruptor : signal_t) (sched : List Nat) :
    List (Nat × store_call_t P) :=
  if M.num_stores ≠ num_read_tokens then []
  else if !region_is_superset M.get_multistore_joined_region start_point.get_domain then []
  else (M.send_multistore_backfill_fanout start_point should_backfill interruptor sched).log

/-- The record of a call of `receive_backfill`. -/
def multistore_ptr_t.receive_backfill_calls (M : multistore_ptr_t P)
    (chunk : P.backfill_chunk_t) (num_stores_assertion : Nat) (interruptor : signal_t)
    (sched : List Nat) : List (Nat × store_call_t P) :=
  if M.num_stores ≠ num_stores_assertion then []
  else if !region_is_superset M.get_multistore_joined_region (P.chunk_get_region chunk) then
    []
  else (M.receive_backfill_fanout chunk interruptor sched).log

/-- The record of a call of `read`. -/
def multistore_ptr_t.read_calls (M : multistore_ptr_t P)
    (metainfo_checker : metainfo_checker_t κ) (read : P.read_t) (order_token : Nat)
    (num_read_tokens : Nat) (interruptor : signal_t) (sched : List Nat) :
    List (Nat × store_call_t P) :=
  if M.num_stores ≠ num_read_tokens then []
  else (M.read_fanout metainfo_checker read order_token interruptor sched).log

/-- The record of a call of `write`. -/
def multistore_ptr_t.write_calls (M : multistore_ptr_t P)
    (metainfo_checker : metainfo_checker_t κ) (new_metainfo : region_map_t κ P.binary_blob_t)
    (write : P.write_t) (timestamp : Nat) (order_token : Nat) (num_stores_assertion : Nat)
    (interruptor : signal_t) (sched : List Nat) (overlap : Nat → Bool) :
    List (Nat × store_call_t P) :=
  if M.num_stores ≠ num_stores_assertion then []
  else (M.write_fanout metainfo_checker new_metainfo write timestamp order_token
    interruptor sched overlap).log

/-- The record of a call of `reset_all_data`. -/
def multistore_ptr_t.reset_all_data_calls (M : multistore_ptr_t P) (subregion : Finset κ)
    (new_metainfo : region_map_t κ P.binary_blob_t) (num_stores_assertion : Nat)
    (interruptor : signal_t) (sched : List Nat) : List (Nat × store_call_t P) :=
  if M.num_stores ≠ num_stores_assertion then []
  else (M.reset_all_data_fanout subregion new_metainfo interruptor sched).log

end aggregator

/-! ## A small protocol and two aggregators, for concrete runs -/

section toy

/-- The shard of a key of `Fin 4` among `n` shards: keys are dealt out to the
shards by their residue modulo `n`. -/
def toy_subspace (i n : Nat) : Finset (Fin 4) :=
  Finset.univ.filter (fun k => k.val % n = i)

/-- A protocol over the four keys `0 .. 3`: a request is the set of keys it
touches, a response or a chunk is a set of keys, blobs and versions are
numbers, and a blob is read as the version one above it. -/
@[reducible]
def toy_protocol : protocol_t (Fin 4) where
  read_t := Finset (Fin 4)
  read_response_t := Finset (Fin 4)
  write_t := Finset (Fin 4)
  write_response_t := Finset (Fin 4)
  backfill_chunk_t := Finset (Fin 4)
  binary_blob_t := Nat
  binary_blob_default := 0
  version_range_t := Nat
  version_range_default := 0
  blob_get := fun b => b + 1
  cpu_sharding_subspace := toy_subspace
  read_get_region := fun r => r
  read_shard := fun r rg => r ∩ rg
  read_multistore_unshard := fun _ rs => rs.foldr (fun a b => a ∪ b) ∅
  write_get_region := fun w => w
  write_shard := fun w rg => w ∩ rg
  write_multistore_unshard := fun _ rs => rs.foldr (fun a b => a ∪ b) ∅
  chunk_get_region := fun c => c
  chunk_shard := fun c rg => c ∩ rg
  subspace_disjoint := by
    intro n i j _ _ hij
    rw [Finset.disjoint_left]
    intro k hi hj
    simp only [toy_subspace, Finset.mem_filter, Finset.mem_univ, true_and] at hi hj
    exact hij (hi.symm.trans hj)
  subspace_cover := by
    intro n k hn
    exact ⟨k.val % n, Nat.mod_lt _ hn, by simp [toy_subspace]⟩

/-- A store over all four keys whose metainfo gives every key the blob `b`,
which never raises, answers a read or write with the keys asked for, delivers
its metainfo to `should_backfill` and streams no chunk. -/
def toy_store (b : Nat) : store_t toy_protocol :=
  { home_thread := 0,
    region := Finset.univ,
    metainfo := fun _ => some b,
    raises := fun _ _ => false,
    read_response := fun _ r _ => r,
    write_response := fun _ _ w _ _ => w,
    backfill_metainfo := fun _ => fun _ => some b,
    backfill_chunks := fun _ => [] }

/-- The aggregator of two such stores over all four keys. -/
def toy_multistore : multistore_ptr_t toy_protocol :=
  multistore_ptr_t.create [.store (toy_store 5), .store (toy_store 7)] 2 Finset.univ

/-- The aggregator of no store at all, over the empty region. -/
def empty_multistore : multistore_ptr_t toy_protocol :=
  multistore_ptr_t.create [] 0 ∅

/-- Two metainfo maps, as two shards may deliver them. -/
def toy_metainfos : List (region_map_t (Fin 4) toy_protocol.binary_blob_t) :=
  [fun _ => some 1, fun _ => some 2]

/-- The start point that gives every key the timestamp `0`. -/
def toy_start_point : region_map_t (Fin 4) Nat := fun _ => some 0

/-- The metainfo that slot `i` of `toy_multistore` delivers to `should_backfill`. -/
def toy_delivered (i : Nat) : region_map_t (Fin 4) toy_protocol.binary_blob_t :=
  fun _ => some (if i = 0 then 5 else 7)

/-- The metainfo that gives every key the blob `9`. -/
def toy_blobs : region_map_t (Fin 4) toy_protocol.binary_blob_t := fun _ => some 9

/-- A metainfo checker over all four keys. -/
def toy_checker : metainfo_checker_t (Fin 4) := ⟨0, Finset.univ⟩

/-- The request (read, write, chunk or subregion) over the keys `1` and `2`. -/
def toy_request : Finset (Fin 4) := {1, 2}

/-- A store like `toy_store b` that covers only the keys of shard `i` of two. -/
def toy_sharded_store (i b : Nat) : store_t toy_protocol :=
  { toy_store b with region := toy_subspace i 2 }

/-- The aggregator of two stores that cover one shard each, over all four
keys. -/
def sharded_multistore : multistore_ptr_t toy_protocol :=
  multistore_ptr_t.create
    [.store (toy_sharded_store 0 5), .store (toy_sharded_store 1 7)] 2 Finset.univ

/-- The metainfo that slot `i` of `sharded_multistore` delivers to
`should_backfill`: its blob on the keys of shard `i`. -/
def sharded_delivered (i : Nat) : region_map_t (Fin 4) toy_protocol.binary_blob_t :=
  (toy_delivered i).mask (toy_subspace i 2)

/-- The aggregator that the first constructor makes over all four keys from
the one store that covers only the keys of shard 0 of two. -/
def clipped_multistore : multistore_ptr_t toy_protocol :=
  multistore_ptr_t.create [.store (toy_sharded_store 0 5)] 1 Finset.univ

/-- The aggregator of the two stores of `toy_multistore` over the keys `1`
and `2` only. -/
def small_multistore : multistore_ptr_t toy_protocol :=
  multistore_ptr_t.create [.store (toy_store 5), .store (toy_store 7)] 2 toy_request

/-- The aggregator of two stores over all four keys that live on two threads:
the first on thread 0, the second on thread 1. -/
def two_thread_multistore : multistore_ptr_t toy_protocol :=
  multistore_ptr_t.create
    [.store (toy_store 5), .store { toy_store 7 with home_thread := 1 }] 2 Finset.univ

/-- The aggregator over all four keys of two stores that split the keys in
halves, the first over the keys `0` and `1`, the second over `2` and `3`,
while the shards of the aggregator are the even and the odd keys. -/
def misaligned_multistore : multistore_ptr_t toy_protocol :=
  multistore_ptr_t.create
    [.store { toy_store 5 with region := {0, 1} },
     .store { toy_store 7 with region := {2, 3} }] 2 Finset.univ

/-- The aggregator of no store at all, made over all four keys. -/
def storeless_multistore : multistore_ptr_t toy_protocol :=
  multistore_ptr_t.create [] 0 Finset.univ

end toy

/-! ## Lemmas -/

section region_maps

variable {κ : Type}

/-- A key is in the domain of a region map when the map has a value there. -/
theorem mem_get_domain [Fintype κ] {V : Type} (m : region_map_t κ V) (k : κ) :
    k ∈ m.get_domain ↔ ∃ v, m k = some v := by
  simp [region_map_t.get_domain, Option.isSome_iff_exists]

/-- Updates with maps that have no value at `k` leave the value at `k`. -/
theorem foldl_update_none {V : Type} (k : κ) (ms : List (region_map_t κ V)) :
    ∀ a : region_map_t κ V, (∀ m ∈ ms, m k = none) →
      (ms.foldl region_map_t.update a) k = a k := by
  induction ms with
  | nil => intro a _; rfl
  | cons m ms ih =>
    intro a h
    rw [List.foldl_cons, ih _ (fun m2 hm2 => h m2 (List.mem_cons_of_mem _ hm2))]
    simp [region_map_t.update, h m (List.mem_cons_self _ _)]

/-- Updates with the maps `T j` of a duplicate-free schedule, of which only
`T i` may have a value at `k`: the value at `k` is that of the update with
`T i` alone. -/
theorem foldl_update_unique {V : Type} (k : κ) (T : Nat → region_map_t κ V) (i : Nat) :
    ∀ (sched : List Nat) (a : region_map_t κ V), sched.Nodup → i ∈ sched →
      (∀ j ∈ sched, j ≠ i → T j k = none) →
      ((sched.map T).foldl region_map_t.update a) k = (a.update (T i)) k := by
  intro sched
  induction sched with
  | nil => intro a _ h; simp at h
  | cons j sched ih =>
    intro a hnd hi hT
    rw [List.nodup_cons] at hnd
    rw [List.map_cons, List.foldl_cons]
    by_cases hji : j = i
    · subst hji
      apply foldl_update_none
      intro m hm
      rw [List.mem_map] at hm
      obtain ⟨x, hx, rfl⟩ := hm
      exact hT x (List.mem_cons_of_mem _ hx) (fun hxj => hnd.1 (hxj ▸ hx))
    · have hi2 : i ∈ sched := by
        rcases List.mem_cons.mp hi with h | h
        · exact absurd h.symm hji
        · exact h
      rw [ih _ hnd.2 hi2 (fun x hx hxi => hT x (List.mem_cons_of_mem _ hx) hxi)]
      have hj : T j k = none := hT j (List.mem_cons_self _ _) hji
      simp [region_map_t.update, hj]

/-- An update with a map whose domain lies in the domain of the updated map
keeps the domain. -/
theorem get_domain_update_of_subset [Fintype κ] {V : Type} (a t : region_map_t κ V)
    (h : t.get_domain ⊆ a.get_domain) : (a.update t).get_domain = a.get_domain := by
  ext k
  simp only [mem_get_domain]
  constructor
  · rintro ⟨v, hv⟩
    unfold region_map_t.update at hv
    cases ht : t k with
    | none => rw [ht] at hv; exact ⟨v, hv⟩
    | some x => exact (mem_get_domain a k).mp (h ((mem_get_domain t k).mpr ⟨x, ht⟩))
  · rintro ⟨v, hv⟩
    unfold region_map_t.update
    cases ht : t k with
    | none => exact ⟨v, hv⟩
    | some x => exact ⟨x, rfl⟩

/-- A transformed map has the domain of the map it was made from. -/
theorem get_domain_transform [Fintype κ] {V U : Type} (m : region_map_t κ V) (g : V → U) :
    (region_map_transform m g).get_domain = m.get_domain := by
  ext k
  simp only [mem_get_domain, region_map_transform]
  cases m k <;> simp

/-- Updates with maps whose domains lie in the domain of the updated map keep
the domain. -/
theorem foldl_update_domain [Fintype κ] {V : Type} (ms : List (region_map_t κ V)) :
    ∀ a : region_map_t κ V, (∀ m ∈ ms, m.get_domain ⊆ a.get_domain) →
      (ms.foldl region_map_t.update a).get_domain = a.get_domain := by
  induction ms with
  | nil => intro a _; rfl
  | cons m ms ih =>
    intro a h
    have h1 := get_domain_update_of_subset a m (h m (List.mem_cons_self _ _))
    rw [List.foldl_cons, ih, h1]
    intro m2 hm2
    rw [h1]
    exact h m2 (List.mem_cons_of_mem _ hm2)

end region_maps

section lemmas
variable {κ : Type} [DecidableEq κ]

/-- A fold of steps that may fail, started from any outcome, is the bind of
that outcome with the fold started from a normal state. -/
theorem outcome_foldl_bind {α β : Type} (g : α → β → outcome α) (ms : List β) (o : outcome α) :
    ms.foldl (fun o m => o.bind (fun a => g a m)) o
      = o.bind (fun a => ms.foldl (fun o m => o.bind (fun a => g a m)) (.ok a)) := by
  induction ms generalizing o with
  | nil => cases o <;> rfl
  | cons m ms ih =>
    cases o with
    | ok a => rfl
    | interrupted => rw [List.foldl_cons]; exact ih _
    | aborted => rw [List.foldl_cons]; exact ih _
    | blocked => rw [List.foldl_cons]; exact ih _

variable {P : protocol_t κ}
open multistore_send_backfill_should_backfill_t

/-- No arrival leaves the rendezvous as it is. -/
theorem arrivals_nil (f : region_map_t κ P.binary_blob_t → Bool)
    (h : multistore_send_backfill_should_backfill_t P) : arrivals f h [] = .ok h := rfl

/-- The first arrival is one `should_backfill` step. -/
theorem arrivals_cons (f : region_map_t κ P.binary_blob_t → Bool)
    (h : multistore_send_backfill_should_backfill_t P) (m : region_map_t κ P.binary_blob_t)
    (ms : List (region_map_t κ P.binary_blob_t)) :
    arrivals f h (m :: ms) = (should_backfill f h m).bind (fun h2 => arrivals f h2 ms) := by
  unfold arrivals
  rw [List.foldl_cons, outcome_foldl_bind]
  rfl

/-- Fewer arrivals than the countdown: the maps are merged, the countdown is
lowered, and nothing else changes. -/
theorem arrivals_before (f : region_map_t κ P.binary_blob_t → Bool)
    (ms : List (region_map_t κ P.binary_blob_t)) :
    ∀ h : multistore_send_backfill_should_backfill_t P, (ms.length : Int) < h.countdown_ →
      arrivals f h ms = .ok { h with
        countdown_ := h.countdown_ - ms.length,
        combined_metainfo_ := ms.foldl region_map_t.update h.combined_metainfo_ } := by
  induction ms with
  | nil => intro h _; cases h; simp [arrivals_nil]
  | cons m ms ih =>
    intro h hlt
    simp only [List.length_cons, Nat.cast_add, Nat.cast_one] at hlt
    have h1 : ¬ (h.countdown_ - 1 < 0) := by omega
    have h2 : ¬ (h.countdown_ - 1 = 0) := by omega
    rw [arrivals_cons]
    simp only [should_backfill, h1, h2, if_false, outcome.bind]
    rw [ih _ (by simp only; omega)]
    simp only [List.length_cons, Nat.cast_add, Nat.cast_one, List.foldl_cons]
    congr 2
    omega

/-- As many arrivals as the countdown (and at least one): the last of them calls
`should_backfill_func_` on the merged map and pulses the promise. -/
theorem arrivals_last (f : region_map_t κ P.binary_blob_t → Bool)
    (ms : List (region_map_t κ P.binary_blob_t)) :
    ∀ h : multistore_send_backfill_should_backfill_t P, (ms.length : Int) = h.countdown_ →
      ms ≠ [] →
      arrivals f h ms = .ok {
        countdown_ := 0,
        combined_metainfo_ := ms.foldl region_map_t.update h.combined_metainfo_,
        result_promise_ := some (f (ms.foldl region_map_t.update h.combined_metainfo_)),
        invocations := h.invocations ++
          [(ms.foldl region_map_t.update h.combined_metainfo_,
            f (ms.foldl region_map_t.update h.combined_metainfo_))] } := by
  induction ms with
  | nil => intro h _ hne; exact absurd rfl hne
  | cons m ms ih =>
    intro h hlen _
    simp only [List.length_cons, Nat.cast_add, Nat.cast_one] at hlen
    rw [arrivals_cons]
    by_cases hms : ms = []
    · subst hms
      simp only [List.length_nil, Nat.cast_zero, zero_add] at hlen
      have h1 : ¬ (h.countdown_ - 1 < 0) := by omega
      have h2 : h.countdown_ - 1 = 0 := by omega
      simp [should_backfill, h1, h2, outcome.bind, arrivals_nil, promise_t.pulse]
    · have hpos : 0 < ms.length := List.length_pos.mpr hms
      have h1 : ¬ (h.countdown_ - 1 < 0) := by omega
      have h2 : ¬ (h.countdown_ - 1 = 0) := by omega
      simp only [should_backfill, h1, h2, if_false, outcome.bind]
      rw [ih _ (by simp only; omega) hms]
      simp only [List.foldl_cons]

/-- A signal that is not pulsed at some time was not pulsed before. -/
theorem is_pulsed_false_of_le (s : signal_t) {t u : Nat} (htu : t ≤ u)
    (h : s.is_pulsed u = false) : s.is_pulsed t = false := by
  unfold signal_t.is_pulsed at *
  cases hp : s.pulse_time with
  | none => rfl
  | some x =>
    rw [hp] at h
    simp only [decide_eq_false_iff_not, not_le] at h ⊢
    omega

/-- A schedule that is a permutation of `0 .. n-1` has `n` entries. -/
theorem sched_length {n : Nat} {sched : List Nat} (h : sched.Perm (List.range n)) :
    sched.length = n := by
  rw [h.length_eq, List.length_range]

/-- Every entry of a schedule of `0 .. n-1` is a slot of the array. -/
theorem sched_slot (M : multistore_ptr_t P) {sched : List Nat}
    (h : sched.Perm (List.range M.num_stores)) {i : Nat} (hi : i ∈ sched) :
    ∃ sv, M.store_views[i]? = some sv := by
  have hlt : i < M.store_views.length := by
    have := (h.mem_iff).mp hi
    simpa [multistore_ptr_t.num_stores] using this
  exact ⟨M.store_views[i], List.getElem?_eq_getElem hlt⟩

/-- The fan-out of `send_multistore_backfill` when every store of the
schedule delivers its metainfo and the interruptor stays unpulsed. -/
theorem backfill_fanout_deliver (M : multistore_ptr_t P)
    (f : region_map_t κ P.binary_blob_t → Bool) (start_point : region_map_t κ Nat)
    (interruptor : signal_t) (metainfo : Nat → region_map_t κ P.binary_blob_t) :
    ∀ (sched : List Nat) (st : fanout_t P (backfill_acc_t P)),
      (∀ i ∈ sched, ∃ sv, M.store_views[i]? = some sv ∧
        sv.send_backfill_metainfo (start_point.mask (M.get_region i)) false
          = some (metainfo i)) →
      interruptor.is_pulsed (st.now + sched.length) = false →
      pmap sched (fun i => M.single_shard_backfill i f start_point interruptor) st =
        { now := st.now + sched.length,
          log := st.log ++ sched.map
            (fun i => (i, store_call_t.send_backfill (start_point.mask (M.get_region i)))),
          raised := st.raised,
          acc := {
            helper := (sched.map metainfo).foldl
              (fun o m => o.bind (fun h2 => should_backfill f h2 m)) st.acc.helper,
            arrived := st.acc.arrived ++ sched } } := by
  intro sched
  induction sched with
  | nil => intro st _ _; cases st with | mk now log raised acc => cases acc; simp [pmap]
  | cons i sched ih =>
    intro st hdel hnp
    obtain ⟨sv, hsv, hm⟩ := hdel i (List.mem_cons_self _ _)
    have hnow : interruptor.is_pulsed st.now = false :=
      is_pulsed_false_of_le interruptor (by omega) hnp
    have hstep : M.single_shard_backfill i f start_point interruptor st =
        { st.step i (.send_backfill (start_point.mask (M.get_region i))) with
          acc := { helper := st.acc.helper.bind (fun h => h.should_backfill f (metainfo i)),
                   arrived := st.acc.arrived ++ [i] } } := by
      simp only [multistore_ptr_t.single_shard_backfill, hsv, cross_thread_signal_t, hnow, hm]
    simp only [pmap, List.foldl_cons] at ih ⊢
    rw [hstep, ih]
    · simp only [fanout_t.step, List.length_cons, List.map_cons, List.foldl_cons,
        List.append_assoc, List.singleton_append]
      congr 1
      omega
    · intro j hj; exact hdel j (List.mem_cons_of_mem _ hj)
    · simp only [fanout_t.step, List.length_cons] at hnp ⊢
      rw [show st.now + 1 + sched.length = st.now + (sched.length + 1) by omega]
      exact hnp

/-- A fan-out whose every task adds one entry to the record and one tick to
the clock, and keeps `I`: the state at the join. -/
theorem pmap_trace {α : Type} (f : Nat → fanout_t P α → fanout_t P α)
    (ev : Nat → store_call_t P) (I : fanout_t P α → Prop) (sched : List Nat)
    (hstep : ∀ i ∈ sched, ∀ st, I st →
      I (f i st) ∧ (f i st).log = st.log ++ [(i, ev i)] ∧ (f i st).now = st.now + 1) :
    ∀ st, I st →
      I (pmap sched f st) ∧
      (pmap sched f st).log = st.log ++ sched.map (fun i => (i, ev i)) ∧
      (pmap sched f st).now = st.now + sched.length := by
  induction sched with
  | nil => intro st h; simp [pmap, h]
  | cons i sched ih =>
    intro st h
    obtain ⟨h1, h2, h3⟩ := hstep i (List.mem_cons_self _ _) st h
    obtain ⟨k1, k2, k3⟩ := ih (fun j hj => hstep j (List.mem_cons_of_mem _ hj)) (f i st) h1
    simp only [pmap, List.foldl_cons] at k1 k2 k3 ⊢
    refine ⟨k1, ?_, ?_⟩
    · rw [k2, h2]; simp
    · rw [k3, h3]; simp only [List.length_cons]; omega

/-- In a record with one entry per task of a duplicate-free schedule, the
entries of shard `i` are the one entry of task `i`. -/
theorem filter_shard_map {β : Type} (e : Nat → β) (i : Nat) :
    ∀ (l : List Nat), l.Nodup → i ∈ l →
      (l.map (fun j => (j, e j))).filter (fun p => decide (p.1 = i)) = [(i, e i)] := by
  intro l
  induction l with
  | nil => intro _ h; simp at h
  | cons j l ih =>
    intro hnd hi
    rw [List.nodup_cons] at hnd
    by_cases hji : j = i
    · subst hji
      have hnone : (l.map (fun x => (x, e x))).filter (fun p => decide (p.1 = j)) = [] := by
        rw [List.filter_eq_nil_iff]
        intro p hp
        rw [List.mem_map] at hp
        obtain ⟨x, hx, rfl⟩ := hp
        simp only [decide_eq_true_eq]
        intro hxj; exact hnd.1 (hxj ▸ hx)
      simp [hnone]
    · have hi2 : i ∈ l := by
        rcases List.mem_cons.mp hi with h | h
        · exact absurd h.symm hji
        · exact h
      simp [hji, ih hnd.2 hi2]

/-- A schedule that is a permutation of `0 .. n-1` has no duplicates. -/
theorem sched_nodup {n : Nat} {sched : List Nat} (h : sched.Perm (List.range n)) :
    sched.Nodup := h.nodup_iff.mpr (List.nodup_range n)

/-- A schedule that is a permutation of `0 .. n-1` holds every `i < n`. -/
theorem sched_mem {n : Nat} {sched : List Nat} (h : sched.Perm (List.range n)) {i : Nat}
    (hi : i < n) : i ∈ sched := h.mem_iff.mpr (List.mem_range.mpr hi)

/-- The fan-out of `read`: record, clock and exception flag at the join. -/
theorem read_fanout_trace (M : multistore_ptr_t P) (c : metainfo_checker_t κ) (r : P.read_t)
    (o : Nat) (interruptor : signal_t) (sched : List Nat)
    (hslot : ∀ i ∈ sched, ∃ sv, M.store_views[i]? = some sv) :
    (M.read_fanout c r o interruptor sched).raised = false ∧
    (M.read_fanout c r o interruptor sched).log = sched.map (fun i => (i,
      if region_is_empty (region_intersection (M.get_region i) (P.read_get_region r))
      then store_call_t.token_reset
      else store_call_t.read (c.mask (M.get_region i))
        (P.read_shard r (region_intersection (M.get_region i) (P.read_get_region r))) o)) ∧
    (M.read_fanout c r o interruptor sched).now = sched.length := by
  have h := pmap_trace (fun i => M.single_shard_read i c r o interruptor)
    (fun i => if region_is_empty (region_intersection (M.get_region i) (P.read_get_region r))
      then store_call_t.token_reset
      else store_call_t.read (c.mask (M.get_region i))
        (P.read_shard r (region_intersection (M.get_region i) (P.read_get_region r))) o)
    (fun st => st.raised = false) sched
    (by
      intro i hi st hst
      obtain ⟨sv, hsv⟩ := hslot i hi
      simp only [multistore_ptr_t.single_shard_read, hsv]
      split
      · simp [fanout_t.step, hst]
      · split <;> simp [fanout_t.step, hst])
    (fanout_t.start []) rfl
  simpa [multistore_ptr_t.read_fanout, fanout_t.start] using h

/-- The fan-out of `write`: record, clock and exception flag at the join. -/
theorem write_fanout_trace (M : multistore_ptr_t P) (c : metainfo_checker_t κ)
    (nm : region_map_t κ P.binary_blob_t) (w : P.write_t) (t o : Nat)
    (interruptor : signal_t) (sched : List Nat) (overlap : Nat → Bool)
    (hslot : ∀ i ∈ sched, ∃ sv, M.store_views[i]? = some sv) :
    (M.write_fanout c nm w t o interruptor sched overlap).raised = false ∧
    (M.write_fanout c nm w t o interruptor sched overlap).log = sched.map (fun i => (i,
      if region_is_empty (region_intersection (M.get_region i) (P.write_get_region w))
      then store_call_t.token_reset
      else store_call_t.write (c.mask (M.get_region i)) (nm.mask (M.get_region i))
        (P.write_shard w (region_intersection (M.get_region i) (P.write_get_region w))) t o)) ∧
    (M.write_fanout c nm w t o interruptor sched overlap).now = sched.length := by
  have h := pmap_trace (fun i => M.single_shard_write i
      { new_metainfo := nm, metainfo_checker := c } w t o interruptor (overlap i))
    (fun i => if region_is_empty (region_intersection (M.get_region i) (P.write_get_region w))
      then store_call_t.token_reset
      else store_call_t.write (c.mask (M.get_region i)) (nm.mask (M.get_region i))
        (P.write_shard w (region_intersection (M.get_region i) (P.write_get_region w))) t o)
    (fun st => st.raised = false) sched
    (by
      intro i hi st hst
      obtain ⟨sv, hsv⟩ := hslot i hi
      simp only [multistore_ptr_t.single_shard_write, hsv]
      split
      · simp [fanout_t.step, hst]
      · split <;> simp [fanout_t.step, hst])
    (fanout_t.start write_responses_t.empty) rfl
  simpa [multistore_ptr_t.write_fanout, fanout_t.start] using h

/-- The fan-out of `receive_backfill`: record, clock and exception flag at the
join. -/
theorem receive_backfill_fanout_trace (M : multistore_ptr_t P) (chunk : P.backfill_chunk_t)
    (interruptor : signal_t) (sched : List Nat)
    (hslot : ∀ i ∈ sched, ∃ sv, M.store_views[i]? = some sv) :
    (M.receive_backfill_fanout chunk interruptor sched).raised = false ∧
    (M.receive_backfill_fanout chunk interruptor sched).log = sched.map (fun i => (i,
      if region_is_empty (region_intersection (M.get_region i) (P.chunk_get_region chunk))
      then store_call_t.token_reset
      else store_call_t.receive_backfill (P.chunk_shard chunk
        (region_intersection (M.get_region i) (P.chunk_get_region chunk))))) ∧
    (M.receive_backfill_fanout chunk interruptor sched).now = sched.length := by
  have h := pmap_trace (fun i => M.single_shard_receive_backfill i chunk interruptor)
    (fun i => if region_is_empty
        (region_intersection (M.get_region i) (P.chunk_get_region chunk))
      then store_call_t.token_reset
      else store_call_t.receive_backfill (P.chunk_shard chunk
        (region_intersection (M.get_region i) (P.chunk_get_region chunk))))
    (fun st => st.raised = false) sched
    (by
      intro i hi st hst
      obtain ⟨sv, hsv⟩ := hslot i hi
      simp only [multistore_ptr_t.single_shard_receive_backfill, hsv]
      split <;> simp [fanout_t.step, hst])
    (fanout_t.start ()) rfl
  simpa [multistore_ptr_t.receive_backfill_fanout, fanout_t.start] using h

/-- The fan-out of `reset_all_data`: record, clock and exception flag at the
join. -/
theorem reset_all_data_fanout_trace (M : multistore_ptr_t P) (subregion : Finset κ)
    (nm : region_map_t κ P.binary_blob_t) (interruptor : signal_t) (sched : List Nat)
    (hslot : ∀ i ∈ sched, ∃ sv, M.store_views[i]? = some sv) :
    (M.reset_all_data_fanout subregion nm interruptor sched).raised = false ∧
    (M.reset_all_data_fanout subregion nm interruptor sched).log = sched.map (fun i => (i,
      if region_is_empty (region_intersection (M.get_region i) subregion)
      then store_call_t.token_reset
      else store_call_t.reset_data (region_intersection subregion (M.get_region i))
        (nm.mask (M.get_region i)))) ∧
    (M.reset_all_data_fanout subregion nm interruptor sched).now = sched.length := by
  have h := pmap_trace (fun i => M.single_shard_reset_all_data i subregion nm interruptor)
    (fun i => if region_is_empty (region_intersection (M.get_region i) subregion)
      then store_call_t.token_reset
      else store_call_t.reset_data (region_intersection subregion (M.get_region i))
        (nm.mask (M.get_region i)))
    (fun st => st.raised = false) sched
    (by
      intro i hi st hst
      obtain ⟨sv, hsv⟩ := hslot i hi
      simp only [multistore_ptr_t.single_shard_reset_all_data, hsv, region_overlaps,
        Bool.not_not]
      split <;> simp [fanout_t.step, hst])
    (fanout_t.start ()) rfl
  simpa [multistore_ptr_t.reset_all_data_fanout, fanout_t.start] using h

/-- The tasks of `read` add at most one response per shard whose
intersection with the read region is not empty. -/
theorem read_fanout_responses_le (M : multistore_ptr_t P) (c : metainfo_checker_t κ)
    (r : P.read_t) (o : Nat) (interruptor : signal_t) :
    ∀ (sched : List Nat) (st : fanout_t P (List P.read_response_t)),
      (pmap sched (fun i => M.single_shard_read i c r o interruptor) st).acc.length ≤
        st.acc.length + (sched.filter (fun i => !region_is_empty
          (region_intersection (M.get_region i) (P.read_get_region r)))).length := by
  intro sched
  induction sched with
  | nil => intro st; simp [pmap]
  | cons i sched ih =>
    intro st
    simp only [pmap, List.foldl_cons] at ih ⊢
    refine le_trans (ih _) ?_
    simp only [multistore_ptr_t.single_shard_read, List.filter_cons]
    cases hsv : M.store_views[i]? with
    | none => simp only; split <;> simp
    | some sv =>
      simp only
      by_cases he : region_is_empty
          (region_intersection (M.get_region i) (P.read_get_region r)) = true
      · simp [he, fanout_t.step]
      · simp only [Bool.not_eq_true] at he
        simp only [he, Bool.false_eq_true, if_false, Bool.not_false, if_true,
          List.length_cons]
        split <;> simp [fanout_t.step]
        omega

/-- A `push_back` adds at most one element to the vector. -/
theorem push_back_length_le (v : write_responses_t P) (thread : Nat) (overlap : Bool)
    (x : P.write_response_t) :
    (v.push_back thread overlap x).responses.length ≤ v.responses.length + 1 := by
  simp only [write_responses_t.push_back, List.length_append, List.length_take,
    List.length_singleton]
  omega

/-- A `push_back` that comes after the latest one (no overlap, the first one,
or one on the same thread) appends its element. -/
theorem push_back_serial (v : write_responses_t P) (thread : Nat) (overlap : Bool)
    (x : P.write_response_t)
    (h : overlap = false ∨ v.pushed_on = none ∨ v.pushed_on = some thread) :
    v.push_back thread overlap x =
      { responses := v.responses ++ [x], end_before := v.responses.length,
        pushed_on := some thread } := by
  have hfin : (match v.pushed_on with
      | some other =>
        if overlap && decide (other ≠ thread) then v.end_before else v.responses.length
      | none => v.responses.length) = v.responses.length := by
    rcases h with h | h | h
    · subst h; cases v.pushed_on <;> simp
    · rw [h]
    · rw [h]; simp
  simp only [write_responses_t.push_back, hfin, List.take_length]

/-- The tasks of `write` add at most one response per shard whose
intersection with the write region is not empty. -/
theorem write_fanout_responses_le (M : multistore_ptr_t P)
    (mc : new_and_metainfo_checker_t P) (w : P.write_t) (t o : Nat) (interruptor : signal_t)
    (overlap : Nat → Bool) :
    ∀ (sched : List Nat) (st : fanout_t P (write_responses_t P)),
      (pmap sched (fun i => M.single_shard_write i mc w t o interruptor (overlap i))
          st).acc.responses.length ≤
        st.acc.responses.length + (sched.filter (fun i => !region_is_empty
          (region_intersection (M.get_region i) (P.write_get_region w)))).length := by
  intro sched
  induction sched with
  | nil => intro st; simp [pmap]
  | cons i sched ih =>
    intro st
    simp only [pmap, List.foldl_cons] at ih ⊢
    refine le_trans (ih _) ?_
    simp only [multistore_ptr_t.single_shard_write, List.filter_cons]
    cases hsv : M.store_views[i]? with
    | none => simp only; split <;> simp
    | some sv =>
      simp only
      by_cases he : region_is_empty
          (region_intersection (M.get_region i) (P.write_get_region w)) = true
      · simp [he, fanout_t.step]
      · simp only [Bool.not_eq_true] at he
        simp only [he, Bool.false_eq_true, if_false, Bool.not_false, if_true,
          List.length_cons]
        split
        · have := push_back_length_le st.acc sv.home_thread (overlap i) ‹_›
          simp only [fanout_t.step]
          omega
        · simp only [fanout_t.step]
          omega

/-- The fan-out of `send_multistore_backfill`: record and clock when every
task has arrived at the rendezvous or ended; no exception leaves a task. -/
theorem send_backfill_fanout_trace [Fintype κ] (M : multistore_ptr_t P)
    (sp : region_map_t κ Nat) (f : region_map_t κ P.binary_blob_t → Bool)
    (interruptor : signal_t) (sched : List Nat)
    (hslot : ∀ i ∈ sched, ∃ sv, M.store_views[i]? = some sv) :
    (M.send_multistore_backfill_fanout sp f interruptor sched).raised = false ∧
    (M.send_multistore_backfill_fanout sp f interruptor sched).log = sched.map (fun i =>
      (i, store_call_t.send_backfill (sp.mask (M.get_region i)))) ∧
    (M.send_multistore_backfill_fanout sp f interruptor sched).now = sched.length := by
  have h := pmap_trace (fun i => M.single_shard_backfill i f sp interruptor)
    (fun i => store_call_t.send_backfill (sp.mask (M.get_region i)))
    (fun st => st.raised = false) sched
    (by
      intro i hi st hst
      obtain ⟨sv, hsv⟩ := hslot i hi
      simp only [multistore_ptr_t.single_shard_backfill, hsv]
      split <;> simp [fanout_t.step, hst])
    (fanout_t.start
      { helper := .ok (multistore_send_backfill_should_backfill_t.create M.num_stores
          sp.get_domain),
        arrived := [] }) rfl
  simpa [multistore_ptr_t.send_multistore_backfill_fanout, fanout_t.start] using h

/-- The fan-out of `get_all_metainfos`: record and clock at the join. -/
theorem get_all_metainfos_fanout_trace (M : multistore_ptr_t P) (o : Nat)
    (interruptor : signal_t) (sched : List Nat)
    (hslot : ∀ i ∈ sched, ∃ sv, M.store_views[i]? = some sv) :
    (M.get_all_metainfos_fanout o interruptor sched).log = sched.map (fun i =>
      (i, store_call_t.get_metainfo o)) ∧
    (M.get_all_metainfos_fanout o interruptor sched).now = sched.length := by
  have h := pmap_trace (fun i => M.do_get_a_metainfo i o interruptor)
    (fun _ => store_call_t.get_metainfo o)
    (fun _ => True) sched
    (by
      intro i hi st _
      obtain ⟨sv, hsv⟩ := hslot i hi
      simp only [multistore_ptr_t.do_get_a_metainfo, hsv]
      split <;> simp [fanout_t.step])
    (fanout_t.start (region_map_t.init M.get_multistore_joined_region P.version_range_default))
    trivial
  simpa [multistore_ptr_t.get_all_metainfos_fanout, fanout_t.start] using h.2

/-- The fan-out of `set_all_metainfos`: record and clock at the join; the
array keeps its length. -/
theorem set_all_metainfos_fanout_trace (M : multistore_ptr_t P)
    (nm : region_map_t κ P.binary_blob_t) (o : Nat)
    (interruptor : signal_t) (sched : List Nat)
    (hslot : ∀ i ∈ sched, ∃ sv, M.store_views[i]? = some sv) :
    (M.set_all_metainfos_fanout nm o interruptor sched).acc.length = M.num_stores ∧
    (M.set_all_metainfos_fanout nm o interruptor sched).log = sched.map (fun i =>
      (i, store_call_t.set_metainfo (nm.mask (M.get_region i)) o)) ∧
    (M.set_all_metainfos_fanout nm o interruptor sched).now = sched.length := by
  have h := pmap_trace (fun i => M.do_set_a_metainfo i nm o interruptor)
    (fun i => store_call_t.set_metainfo (nm.mask (M.get_region i)) o)
    (fun st => st.acc.length = M.num_stores) sched
    (by
      intro i hi st hst
      obtain ⟨sv, hsv⟩ := hslot i hi
      have hlt : i < st.acc.length := by
        rw [hst]
        have := (List.getElem?_eq_some_iff.mp hsv).1
        exact this
      simp only [multistore_ptr_t.do_set_a_metainfo, List.getElem?_eq_getElem hlt]
      split <;> simp [fanout_t.step, hst])
    (fanout_t.start M.store_views) rfl
  simpa [multistore_ptr_t.set_all_metainfos_fanout, fanout_t.start] using h

/-- The domain of `m.mask(r)` lies inside `r`. -/
theorem get_domain_mask_subset [Fintype κ] {V : Type} (m : region_map_t κ V) (r : Finset κ) :
    (m.mask r).get_domain ⊆ r := by
  intro k hk
  rw [mem_get_domain] at hk
  obtain ⟨v, hv⟩ := hk
  unfold region_map_t.mask at hv
  by_contra hnot
  simp [hnot] at hv

/-- The domain of a masked checker lies inside the mask. -/
theorem checker_mask_subset (c : metainfo_checker_t κ) (r : Finset κ) :
    (c.mask r).get_domain ⊆ r := by
  simp [metainfo_checker_t.mask, metainfo_checker_t.get_domain, region_intersection]

/-- A view whose `read` does not raise answers. -/
theorem store_view_read_ok (sv : store_view_t P) :
    ∀ (c : metainfo_checker_t κ) (r : P.read_t) (o : Nat) (p : Bool),
      sv.raises .read p = false → ∃ x, sv.read c r o p = .ok x := by
  induction sv with
  | store s =>
    intro c r o p h
    simp only [store_view_t.raises] at h
    exact ⟨s.read_response c r o, by simp [store_view_t.read, h]⟩
  | subview inner rg ih => intro c r o p h; exact ih (c.mask rg) r o p h

/-- A view whose `write` does not raise answers. -/
theorem store_view_write_ok (sv : store_view_t P) :
    ∀ (c : metainfo_checker_t κ) (nm : region_map_t κ P.binary_blob_t) (w : P.write_t)
      (t o : Nat) (p : Bool),
      sv.raises .write p = false → ∃ x, sv.write c nm w t o p = .ok x := by
  induction sv with
  | store s =>
    intro c nm w t o p h
    simp only [store_view_t.raises] at h
    exact ⟨s.write_response c nm w t o, by simp [store_view_t.write, h]⟩
  | subview inner rg ih => intro c nm w t o p h; exact ih (c.mask rg) (nm.mask rg) w t o p h

/-- The responses of `read` when no store raises under an unpulsed signal and
the interruptor stays unpulsed: one per shard of the schedule that meets the
read region, in the order of the schedule, each the answer of its store. -/
theorem read_fanout_responses (M : multistore_ptr_t P) (c : metainfo_checker_t κ)
    (r : P.read_t) (o : Nat) (interruptor : signal_t)
    (hcontract : ∀ (i : Nat) (sv : store_view_t P), M.store_views[i]? = some sv →
      sv.raises .read false = false) :
    ∀ (sched : List Nat) (st : fanout_t P (List P.read_response_t)),
      (∀ i ∈ sched, ∃ sv, M.store_views[i]? = some sv) →
      interruptor.is_pulsed (st.now + sched.length) = false →
      ∃ rs, (pmap sched (fun i => M.single_shard_read i c r o interruptor) st).acc
          = st.acc ++ rs ∧
        List.Forall₂ (fun i x => ∃ sv, M.store_views[i]? = some sv ∧
            sv.read (c.mask (M.get_region i))
              (P.read_shard r (region_intersection (M.get_region i) (P.read_get_region r)))
              o false = .ok x)
          (sched.filter (fun i => !region_is_empty
            (region_intersection (M.get_region i) (P.read_get_region r)))) rs := by
  intro sched
  induction sched with
  | nil => intro st _ _; exact ⟨[], by simp [pmap], by simp⟩
  | cons i sched ih =>
    intro st hslot hnp
    obtain ⟨sv, hsv⟩ := hslot i (List.mem_cons_self _ _)
    have hnow : interruptor.is_pulsed st.now = false :=
      is_pulsed_false_of_le interruptor (by omega) hnp
    have hslot2 : ∀ j ∈ sched, ∃ sv, M.store_views[j]? = some sv :=
      fun j hj => hslot j (List.mem_cons_of_mem _ hj)
    simp only [pmap, List.foldl_cons] at ih ⊢
    by_cases he : region_is_empty
        (region_intersection (M.get_region i) (P.read_get_region r)) = true
    · have hstep : M.single_shard_read i c r o interruptor st = st.step i .token_reset := by
        simp [multistore_ptr_t.single_shard_read, hsv, he]
      rw [hstep]
      obtain ⟨rs, h1, h2⟩ := ih (st.step i .token_reset) hslot2
        (by show interruptor.is_pulsed (st.now + 1 + sched.length) = false
            rw [show st.now + 1 + sched.length = st.now + (sched.length + 1) by omega]
            exact hnp)
      refine ⟨rs, by simpa [fanout_t.step] using h1, ?_⟩
      simpa [List.filter_cons, he] using h2
    · simp only [Bool.not_eq_true] at he
      obtain ⟨x, hx⟩ := store_view_read_ok sv (c.mask (M.get_region i))
        (P.read_shard r (region_intersection (M.get_region i) (P.read_get_region r))) o false
        (hcontract i sv hsv)
      have hstep : M.single_shard_read i c r o interruptor st =
          ⟨st.now + 1, st.log ++ [(i, .read (c.mask (M.get_region i))
              (P.read_shard r (region_intersection (M.get_region i) (P.read_get_region r))) o)],
            st.raised, st.acc ++ [x]⟩ := by
        simp [multistore_ptr_t.single_shard_read, hsv, he, cross_thread_signal_t, hnow, hx,
          fanout_t.step]
      rw [hstep]
      obtain ⟨rs, h1, h2⟩ := ih ⟨st.now + 1, st.log ++ [(i, .read (c.mask (M.get_region i))
              (P.read_shard r (region_intersection (M.get_region i) (P.read_get_region r))) o)],
            st.raised, st.acc ++ [x]⟩ hslot2
        (by show interruptor.is_pulsed (st.now + 1 + sched.length) = false
            rw [show st.now + 1 + sched.length = st.now + (sched.length + 1) by omega]
            exact hnp)
      refine ⟨x :: rs, by simpa using h1, ?_⟩
      simp only [List.filter_cons, he, Bool.not_false, if_true]
      exact List.Forall₂.cons ⟨sv, hsv, hx⟩ h2

/-- The responses of `write` when no store raises under an unpulsed signal,
the interruptor stays unpulsed and the `push_back`s come one after the other
(none overlaps, or all stores live on one thread): one per shard of the
schedule that meets the write region, in the order of the schedule, each the
answer of its store. -/
theorem write_fanout_responses (M : multistore_ptr_t P) (c : metainfo_checker_t κ)
    (nm : region_map_t κ P.binary_blob_t) (w : P.write_t) (t o : Nat) (interruptor : signal_t)
    (overlap : Nat → Bool)
    (hcontract : ∀ (i : Nat) (sv : store_view_t P), M.store_views[i]? = some sv →
      sv.raises .write false = false) :
    ∀ (sched : List Nat) (st : fanout_t P (write_responses_t P)),
      (∀ i ∈ sched, ∃ sv, M.store_views[i]? = some sv) →
      interruptor.is_pulsed (st.now + sched.length) = false →
      ((∀ i, overlap i = false) ∨
        ∃ d, (∀ (i : Nat) (sv : store_view_t P), M.store_views[i]? = some sv →
            sv.home_thread = d) ∧
          (st.acc.pushed_on = none ∨ st.acc.pushed_on = some d)) →
      ∃ rs, (pmap sched (fun i => M.single_shard_write i
            { new_metainfo := nm, metainfo_checker := c } w t o interruptor (overlap i))
              st).acc.responses
          = st.acc.responses ++ rs ∧
        List.Forall₂ (fun i x => ∃ sv, M.store_views[i]? = some sv ∧
            sv.write (c.mask (M.get_region i)) (nm.mask (M.get_region i))
              (P.write_shard w (region_intersection (M.get_region i) (P.write_get_region w)))
              t o false = .ok x)
          (sched.filter (fun i => !region_is_empty
            (region_intersection (M.get_region i) (P.write_get_region w)))) rs := by
  intro sched
  induction sched with
  | nil => intro st _ _ _; exact ⟨[], by simp [pmap], by simp⟩
  | cons i sched ih =>
    intro st hslot hnp hser
    obtain ⟨sv, hsv⟩ := hslot i (List.mem_cons_self _ _)
    have hnow : interruptor.is_pulsed st.now = false :=
      is_pulsed_false_of_le interruptor (by omega) hnp
    have hslot2 : ∀ j ∈ sched, ∃ sv, M.store_views[j]? = some sv :=
      fun j hj => hslot j (List.mem_cons_of_mem _ hj)
    simp only [pmap, List.foldl_cons] at ih ⊢
    by_cases he : region_is_empty
        (region_intersection (M.get_region i) (P.write_get_region w)) = true
    · have hstep : M.single_shard_write i { new_metainfo := nm, metainfo_checker := c }
          w t o interruptor (overlap i) st = st.step i .token_reset := by
        simp [multistore_ptr_t.single_shard_write, hsv, he]
      rw [hstep]
      obtain ⟨rs, h1, h2⟩ := ih (st.step i .token_reset) hslot2
        (by show interruptor.is_pulsed (st.now + 1 + sched.length) = false
            rw [show st.now + 1 + sched.length = st.now + (sched.length + 1) by omega]
            exact hnp)
        hser
      refine ⟨rs, by simpa [fanout_t.step] using h1, ?_⟩
      simpa [List.filter_cons, he] using h2
    · simp only [Bool.not_eq_true] at he
      obtain ⟨x, hx⟩ := store_view_write_ok sv (c.mask (M.get_region i))
        (nm.mask (M.get_region i))
        (P.write_shard w (region_intersection (M.get_region i) (P.write_get_region w)))
        t o false (hcontract i sv hsv)
      have hpush : st.acc.push_back sv.home_thread (overlap i) x =
          { responses := st.acc.responses ++ [x], end_before := st.acc.responses.length,
            pushed_on := some sv.home_thread } := by
        apply push_back_serial
        rcases hser with h | ⟨d, hd, h | h⟩
        · exact Or.inl (h i)
        · exact Or.inr (Or.inl h)
        · exact Or.inr (Or.inr (by rw [h, hd i sv hsv]))
      have hstep : M.single_shard_write i { new_metainfo := nm, metainfo_checker := c }
          w t o interruptor (overlap i) st =
          ⟨st.now + 1, st.log ++ [(i, .write (c.mask (M.get_region i))
              (nm.mask (M.get_region i))
              (P.write_shard w (region_intersection (M.get_region i) (P.write_get_region w)))
              t o)],
            st.raised,
            { responses := st.acc.responses ++ [x], end_before := st.acc.responses.length,
              pushed_on := some sv.home_thread }⟩ := by
        simp [multistore_ptr_t.single_shard_write, hsv, he, cross_thread_signal_t, hnow, hx,
          fanout_t.step, hpush]
      rw [hstep]
      obtain ⟨rs, h1, h2⟩ := ih ⟨st.now + 1, st.log ++ [(i, .write (c.mask (M.get_region i))
              (nm.mask (M.get_region i))
              (P.write_shard w (region_intersection (M.get_region i) (P.write_get_region w)))
              t o)],
            st.raised,
            { responses := st.acc.responses ++ [x], end_before := st.acc.responses.length,
              pushed_on := some sv.home_thread }⟩ hslot2
        (by show interruptor.is_pulsed (st.now + 1 + sched.length) = false
            rw [show st.now + 1 + sched.length = st.now + (sched.length + 1) by omega]
            exact hnp)
        (by
          rcases hser with h | ⟨d, hd, _⟩
          · exact Or.inl h
          · exact Or.inr ⟨d, hd, Or.inr (by rw [hd i sv hsv])⟩)
      refine ⟨x :: rs, by simpa using h1, ?_⟩
      simp only [List.filter_cons, he, Bool.not_false, if_true]
      exact List.Forall₂.cons ⟨sv, hsv, hx⟩ h2

/-- The fan-out of `get_all_metainfos` when the stores of the schedule answer
with the maps `metainfo i`: the combined map is the start map updated with
the masked and transformed answers, in the order of the schedule. -/
theorem get_all_metainfos_fanout_acc (M : multistore_ptr_t P) (o : Nat)
    (interruptor : signal_t) (metainfo : Nat → region_map_t κ P.binary_blob_t) :
    ∀ (sched : List Nat) (st : fanout_t P (region_map_t κ P.version_range_t)),
      (∀ i ∈ sched, ∃ sv, M.store_views[i]? = some sv ∧
        ∀ p, sv.get_metainfo p = .ok (metainfo i)) →
      (pmap sched (fun i => M.do_get_a_metainfo i o interruptor) st).acc =
        (sched.map (fun i => region_map_transform ((metainfo i).mask (M.get_region i))
          P.blob_get)).foldl region_map_t.update st.acc ∧
      (pmap sched (fun i => M.do_get_a_metainfo i o interruptor) st).raised = st.raised := by
  intro sched
  induction sched with
  | nil => intro st _; simp [pmap]
  | cons i sched ih =>
    intro st h
    obtain ⟨sv, hsv, hget⟩ := h i (List.mem_cons_self _ _)
    simp only [pmap, List.foldl_cons, List.map_cons] at ih ⊢
    have hstep : M.do_get_a_metainfo i o interruptor st =
        ⟨st.now + 1, st.log ++ [(i, .get_metainfo o)], st.raised,
          st.acc.update (region_map_transform ((metainfo i).mask (M.get_region i))
            P.blob_get)⟩ := by
      simp [multistore_ptr_t.do_get_a_metainfo, hsv, hget, fanout_t.step]
    rw [hstep]
    exact ih _ (fun j hj => h j (List.mem_cons_of_mem _ hj))

/-- The value of the map that `get_all_metainfos` combines, key by key, when
the stores answer with the maps `metainfo i`: nothing outside the region of
the aggregator; on `get_region(i)` the transformed value of store `i`, or the
default version where store `i` has none; the default version on keys of the
region that no shard covers. -/
theorem get_all_metainfos_fanout_value (M : multistore_ptr_t P) (o : Nat)
    (interruptor : signal_t) (metainfo : Nat → region_map_t κ P.binary_blob_t)
    (sched : List Nat) (hsched : sched.Perm (List.range M.num_stores))
    (hget : ∀ (i : Nat) (sv : store_view_t P), M.store_views[i]? = some sv →
      ∀ p, sv.get_metainfo p = .ok (metainfo i)) (k : κ) :
    (M.get_all_metainfos_fanout o interruptor sched).raised = false ∧
    (k ∉ M.region → (M.get_all_metainfos_fanout o interruptor sched).acc k = none) ∧
    (∀ i, i < M.num_stores → k ∈ M.get_region i →
      (M.get_all_metainfos_fanout o interruptor sched).acc k =
        some (((metainfo i k).map P.blob_get).getD P.version_range_default)) ∧
    (k ∈ M.region → (∀ i, i < M.num_stores → k ∉ M.get_region i) →
      (M.get_all_metainfos_fanout o interruptor sched).acc k
        = some P.version_range_default) := by
  have hfan := get_all_metainfos_fanout_acc M o interruptor metainfo sched
    (fanout_t.start (region_map_t.init M.get_multistore_joined_region P.version_range_default))
    (fun i hi => by
      obtain ⟨sv, hsv⟩ := sched_slot M hsched hi
      exact ⟨sv, hsv, hget i sv hsv⟩)
  have hacc : (M.get_all_metainfos_fanout o interruptor sched).acc = _ := hfan.1
  have hT : ∀ j, k ∉ M.get_region j →
      region_map_transform ((metainfo j).mask (M.get_region j)) P.blob_get k = none := by
    intro j hj
    simp [region_map_transform, region_map_t.mask, hj]
  refine ⟨hfan.2, ?_, ?_, ?_⟩
  · intro hk
    rw [hacc, foldl_update_none]
    · simp [fanout_t.start, region_map_t.init,
        multistore_ptr_t.get_multistore_joined_region, hk]
    · intro m hm
      rw [List.mem_map] at hm
      obtain ⟨j, _, rfl⟩ := hm
      apply hT
      simp [multistore_ptr_t.get_region, region_intersection, hk]
  · intro i hi hki
    have hkR : k ∈ M.region := by
      simp only [multistore_ptr_t.get_region, region_intersection, Finset.mem_inter] at hki
      exact hki.1
    rw [hacc, foldl_update_unique k _ i sched _ (sched_nodup hsched) (sched_mem hsched hi)]
    · simp only [region_map_t.update, region_map_transform, region_map_t.mask, hki, if_true,
        fanout_t.start, region_map_t.init, multistore_ptr_t.get_multistore_joined_region, hkR]
      cases metainfo i k <;> rfl
    · intro j hj hji
      apply hT
      have hjn : j < M.num_stores := List.mem_range.mp (hsched.mem_iff.mp hj)
      have hd := P.subspace_disjoint M.num_stores j i hjn hi hji
      simp only [multistore_ptr_t.get_region, region_intersection, Finset.mem_inter] at hki ⊢
      intro hkj
      exact (Finset.disjoint_left.mp hd) hkj.2 hki.2
  · intro hk hno
    rw [hacc, foldl_update_none]
    · simp [fanout_t.start, region_map_t.init,
        multistore_ptr_t.get_multistore_joined_region, hk]
    · intro m hm
      rw [List.mem_map] at hm
      obtain ⟨j, hj, rfl⟩ := hm
      exact hT j (hno j (List.mem_range.mp (hsched.mem_iff.mp hj)))

/-- The map over a region has that region as its domain. -/
theorem get_domain_init [Fintype κ] {V : Type} (r : Finset κ) (v : V) :
    (region_map_t.init r v).get_domain = r := by
  ext k
  simp only [mem_get_domain, region_map_t.init]
  by_cases hk : k ∈ r <;> simp [hk]

/-- The map that the tasks of `get_all_metainfos` combine keeps its domain,
whatever the stores answer. -/
theorem get_all_metainfos_fanout_domain [Fintype κ] (M : multistore_ptr_t P) (o : Nat)
    (interruptor : signal_t) :
    ∀ (sched : List Nat) (st : fanout_t P (region_map_t κ P.version_range_t)),
      st.acc.get_domain = M.region →
      (pmap sched (fun i => M.do_get_a_metainfo i o interruptor) st).acc.get_domain
        = M.region := by
  intro sched
  induction sched with
  | nil => intro st h; simpa [pmap] using h
  | cons i sched ih =>
    intro st h
    simp only [pmap, List.foldl_cons] at ih ⊢
    apply ih
    simp only [multistore_ptr_t.do_get_a_metainfo]
    cases hsv : M.store_views[i]? with
    | none => exact h
    | some sv =>
      simp only
      split
      · simp only [fanout_t.step]
        rw [get_domain_update_of_subset, h]
        rw [get_domain_transform, h]
        refine (get_domain_mask_subset _ _).trans ?_
        simp [multistore_ptr_t.get_region, region_intersection]
      · exact h

/-- A `get_all_metainfos` with the right number of tokens ends in an
exception exactly when one left a task, and returns the combined map
otherwise: its `rassert` on the domain never fails. -/
theorem get_all_metainfos_eq [Fintype κ] (M : multistore_ptr_t P) (o : Nat)
    (interruptor : signal_t) (sched : List Nat) :
    (M.get_all_metainfos_fanout o interruptor sched).acc.get_domain = M.region ∧
    M.get_all_metainfos o M.num_stores interruptor sched =
      if (M.get_all_metainfos_fanout o interruptor sched).raised then .interrupted
      else .ok (M.get_all_metainfos_fanout o interruptor sched).acc := by
  have hdom : (M.get_all_metainfos_fanout o interruptor sched).acc.get_domain = M.region :=
    get_all_metainfos_fanout_domain M o interruptor sched _
      (by simp [fanout_t.start, get_domain_init,
        multistore_ptr_t.get_multistore_joined_region])
  refine ⟨hdom, ?_⟩
  simp [multistore_ptr_t.get_all_metainfos, hdom]

/-- The stores of the two-shard aggregator answer `get_metainfo` with their
blob on every key. -/
theorem toy_get_metainfo (i : Nat) (sv : store_view_t toy_protocol)
    (h : toy_multistore.store_views[i]? = some sv) (p : Bool) :
    sv.get_metainfo p = .ok (toy_delivered i) := by
  rcases i with _ | _ | i
  · simp [toy_multistore, multistore_ptr_t.create, initialize_store_views,
      do_initialize_slot] at h
    subst h
    simp only [store_view_t.get_metainfo, toy_store, Bool.false_eq_true, if_false,
      outcome.bind]
    congr 1; funext k
    simp [region_map_t.mask, toy_delivered, region_intersection, store_view_t.get_region]
  · simp [toy_multistore, multistore_ptr_t.create, initialize_store_views,
      do_initialize_slot] at h
    subst h
    simp only [store_view_t.get_metainfo, toy_store, Bool.false_eq_true, if_false,
      outcome.bind]
    congr 1; funext k
    simp [region_map_t.mask, toy_delivered, region_intersection, store_view_t.get_region]
  · simp [toy_multistore, multistore_ptr_t.create, initialize_store_views] at h

/-- The fan-out of `set_all_metainfos` over stores that take the metainfo set
on them and hold it: no exception leaves a task, the array keeps its length,
the slot of every task of the schedule holds the masked metainfo, and the
other slots are untouched. -/
theorem set_all_metainfos_fanout_slots (M : multistore_ptr_t P)
    (nm : region_map_t κ P.binary_blob_t) (o : Nat) (interruptor : signal_t)
    (hstore : ∀ (i : Nat) (sv : store_view_t P), M.store_views[i]? = some sv →
      ∀ p, ∃ sv2, sv.set_metainfo (nm.mask (M.get_region i)) p = .ok sv2 ∧
        ∀ q, sv2.get_metainfo q = .ok (nm.mask (M.get_region i))) :
    ∀ (sched : List Nat) (st : fanout_t P (List (store_view_t P))),
      sched.Nodup → (∀ i ∈ sched, i < M.num_stores) →
      st.acc.length = M.num_stores →
      (∀ i ∈ sched, st.acc[i]? = M.store_views[i]?) →
      (pmap sched (fun i => M.do_set_a_metainfo i nm o interruptor) st).raised = st.raised ∧
      (pmap sched (fun i => M.do_set_a_metainfo i nm o interruptor) st).acc.length
        = M.num_stores ∧
      (∀ i ∈ sched, ∃ sv2,
        (pmap sched (fun i => M.do_set_a_metainfo i nm o interruptor) st).acc[i]? = some sv2 ∧
        ∀ q, sv2.get_metainfo q = .ok (nm.mask (M.get_region i))) ∧
      (∀ i, i ∉ sched →
        (pmap sched (fun i => M.do_set_a_metainfo i nm o interruptor) st).acc[i]?
          = st.acc[i]?) := by
  intro sched
  induction sched with
  | nil => intro st _ _ hlen _; simp [pmap, hlen]
  | cons i sched ih =>
    intro st hnd hlt hlen horig
    rw [List.nodup_cons] at hnd
    have hi : i < st.acc.length := by rw [hlen]; exact hlt i (List.mem_cons_self _ _)
    have hsv : M.store_views[i]? = some st.acc[i] := by
      rw [← horig i (List.mem_cons_self _ _)]; exact List.getElem?_eq_getElem hi
    obtain ⟨sv2, hset, hgetq⟩ := hstore i st.acc[i] hsv
      ((cross_thread_signal_t interruptor (st.acc[i]).home_thread).is_pulsed st.now)
    have hstep : M.do_set_a_metainfo i nm o interruptor st =
        ⟨st.now + 1, st.log ++ [(i, .set_metainfo (nm.mask (M.get_region i)) o)], st.raised,
          st.acc.set i sv2⟩ := by
      simp only [multistore_ptr_t.do_set_a_metainfo, List.getElem?_eq_getElem hi, hset,
        fanout_t.step]
    simp only [pmap, List.foldl_cons] at ih ⊢
    rw [hstep]
    obtain ⟨h1, h2, h3, h4⟩ := ih
      ⟨st.now + 1, st.log ++ [(i, .set_metainfo (nm.mask (M.get_region i)) o)], st.raised,
        st.acc.set i sv2⟩ hnd.2 (fun j hj => hlt j (List.mem_cons_of_mem _ hj))
      (by simp [hlen])
      (by
        intro j hj
        have hji : i ≠ j := fun h => hnd.1 (h ▸ hj)
        simp only [List.getElem?_set_ne hji]
        exact horig j (List.mem_cons_of_mem _ hj))
    refine ⟨h1, h2, ?_, ?_⟩
    · intro j hj
      rcases List.mem_cons.mp hj with rfl | hj2
      · refine ⟨sv2, ?_, hgetq⟩
        rw [h4 j hnd.1]
        simp [List.getElem?_set_self hi]
      · exact h3 j hj2
    · intro j hj
      have hji : i ≠ j := fun h => hj (h ▸ List.mem_cons_self _ _)
      rw [h4 j (fun h => hj (List.mem_cons_of_mem _ h))]
      simp [List.getElem?_set_ne hji]

/-- The stores of the two-shard aggregator take any metainfo set on them and
hold it. -/
theorem toy_holds_metainfo (m : region_map_t (Fin 4) toy_protocol.binary_blob_t) (i : Nat)
    (sv : store_view_t toy_protocol) (h : toy_multistore.store_views[i]? = some sv)
    (p : Bool) :
    ∃ sv2, sv.set_metainfo m p = .ok sv2 ∧ ∀ q, sv2.get_metainfo q = .ok m := by
  have hmask : (m.mask (region_intersection (Finset.univ : Finset (Fin 4)) Finset.univ)).mask
      (region_intersection (Finset.univ : Finset (Fin 4)) Finset.univ) = m := by
    funext k
    simp [region_map_t.mask, region_intersection]
  rcases i with _ | _ | i
  · simp [toy_multistore, multistore_ptr_t.create, initialize_store_views,
      do_initialize_slot] at h
    subst h
    refine ⟨_, by simp [store_view_t.set_metainfo, toy_store, outcome.bind]; rfl, ?_⟩
    intro q
    simp only [store_view_t.get_metainfo, Bool.false_eq_true, if_false, outcome.bind]
    exact congrArg outcome.ok hmask
  · simp [toy_multistore, multistore_ptr_t.create, initialize_store_views,
      do_initialize_slot] at h
    subst h
    refine ⟨_, by simp [store_view_t.set_metainfo, toy_store, outcome.bind]; rfl, ?_⟩
    intro q
    simp only [store_view_t.get_metainfo, Bool.false_eq_true, if_false, outcome.bind]
    exact congrArg outcome.ok hmask
  · simp [toy_multistore, multistore_ptr_t.create, initialize_store_views] at h

/-- The shard regions of an aggregator with at least one shard cover its
region. -/
theorem shards_cover (M : multistore_ptr_t P) (hn : 0 < M.num_stores) :
    ∀ k ∈ M.region, ∃ i, i < M.num_stores ∧ k ∈ M.get_region i := by
  intro k hk
  obtain ⟨i, hi, hki⟩ := P.subspace_cover M.num_stores k hn
  exact ⟨i, hi, by simp [multistore_ptr_t.get_region, region_intersection, hk, hki]⟩

/-- Every slot of an aggregator made by a constructor is a `store_subview_t`. -/
theorem constructed_slots (M : multistore_ptr_t P) (hM : M.constructed) :
    ∀ sv ∈ M.store_views, ∃ inner rg, sv = store_view_t.subview inner rg := by
  cases hM with
  | create views n region =>
    intro sv hsv
    simp only [multistore_ptr_t.create, initialize_store_views, List.mem_map] at hsv
    obtain ⟨x, _, rfl⟩ := hsv
    exact ⟨x, _, rfl⟩
  | narrow inner region _ _ hn =>
    intro sv hsv
    unfold multistore_ptr_t.narrow at hn
    split at hn
    · cases hn
      simp only [initialize_store_views, List.mem_map] at hsv
      obtain ⟨x, _, rfl⟩ := hsv
      exact ⟨x, _, rfl⟩
    · cases hn

/-- The metainfo a `store_subview_t` answers with has no value outside the
region of the subview. -/
theorem subview_metainfo_outside (inner : store_view_t P) (rg : Finset κ) (p : Bool)
    (m : region_map_t κ P.binary_blob_t)
    (h : (store_view_t.subview inner rg).get_metainfo p = .ok m) (k : κ) (hk : k ∉ rg) :
    m k = none := by
  simp only [store_view_t.get_metainfo] at h
  cases hi : inner.get_metainfo p with
  | ok m2 =>
    rw [hi] at h
    simp only [outcome.bind, outcome.ok.injEq] at h
    rw [← h]
    simp [region_map_t.mask, hk]
  | interrupted => rw [hi] at h; simp [outcome.bind] at h
  | aborted => rw [hi] at h; simp [outcome.bind] at h
  | blocked => rw [hi] at h; simp [outcome.bind] at h

/-- The rendezvous of `send_multistore_backfill` never fails its `rassert`: as
long as the countdown is at least the number of tasks still to run, the
rendezvous is in a normal state after them. -/
theorem send_backfill_fanout_helper_ok (M : multistore_ptr_t P)
    (f : region_map_t κ P.binary_blob_t → Bool) (sp : region_map_t κ Nat)
    (interruptor : signal_t) :
    ∀ (sched : List Nat) (st : fanout_t P (backfill_acc_t P)),
      (∃ h, st.acc.helper = .ok h ∧ (sched.length : Int) ≤ h.countdown_) →
      ∃ h, (pmap sched (fun i => M.single_shard_backfill i f sp interruptor) st).acc.helper
        = .ok h := by
  intro sched
  induction sched with
  | nil => intro st ⟨h, hh, _⟩; exact ⟨h, hh⟩
  | cons i sched ih =>
    intro st ⟨h, hh, hc⟩
    simp only [List.length_cons, Nat.cast_add, Nat.cast_one] at hc
    simp only [pmap, List.foldl_cons] at ih ⊢
    apply ih
    simp only [multistore_ptr_t.single_shard_backfill]
    cases hsv : M.store_views[i]? with
    | none => exact ⟨h, hh, by omega⟩
    | some sv =>
      simp only
      split
      · exact ⟨h, hh, by omega⟩
      · have h1 : ¬ (h.countdown_ - 1 < 0) := by omega
        simp only [hh, outcome.bind,
          multistore_send_backfill_should_backfill_t.should_backfill, h1, if_false]
        split
        · exact ⟨_, rfl, by simp only; omega⟩
        · exact ⟨_, rfl, by simp only; omega⟩

/-- The responses of `read`, whatever the stores do: they are the answers of
the stores of a sub-sequence of the schedule (the shards that meet the read
region and did not raise), in the order of the schedule. -/
theorem read_fanout_order (M : multistore_ptr_t P) (c : metainfo_checker_t κ)
    (r : P.read_t) (o : Nat) (interruptor : signal_t) :
    ∀ (sched : List Nat) (st : fanout_t P (List P.read_response_t)),
      ∃ (shards : List Nat) (rs : List P.read_response_t),
        (pmap sched (fun i => M.single_shard_read i c r o interruptor) st).acc
          = st.acc ++ rs ∧
        shards.Sublist (sched.filter (fun i => !region_is_empty
          (region_intersection (M.get_region i) (P.read_get_region r)))) ∧
        List.Forall₂ (fun i x => ∃ sv p, M.store_views[i]? = some sv ∧
            sv.read (c.mask (M.get_region i))
              (P.read_shard r (region_intersection (M.get_region i) (P.read_get_region r)))
              o p = .ok x)
          shards rs := by
  intro sched
  induction sched with
  | nil => intro st; exact ⟨[], [], by simp [pmap], by simp, by simp⟩
  | cons i sched ih =>
    intro st
    simp only [pmap, List.foldl_cons] at ih ⊢
    obtain ⟨shards, rs, h1, h2, h3⟩ := ih (M.single_shard_read i c r o interruptor st)
    cases hsv : M.store_views[i]? with
    | none =>
      have hstep : M.single_shard_read i c r o interruptor st = st := by
        simp [multistore_ptr_t.single_shard_read, hsv]
      rw [hstep] at h1 ⊢
      exact ⟨shards, rs, h1, h2.trans ((List.sublist_cons_self i sched).filter _), h3⟩
    | some sv =>
      by_cases he : region_is_empty
          (region_intersection (M.get_region i) (P.read_get_region r)) = true
      · have hstep : (M.single_shard_read i c r o interruptor st).acc = st.acc := by
          simp [multistore_ptr_t.single_shard_read, hsv, he, fanout_t.step]
        rw [hstep] at h1
        refine ⟨shards, rs, h1, ?_, h3⟩
        simpa [List.filter_cons, he] using h2
      · simp only [Bool.not_eq_true] at he
        cases hx : sv.read (c.mask (M.get_region i))
            (P.read_shard r (region_intersection (M.get_region i) (P.read_get_region r)))
            o ((cross_thread_signal_t interruptor sv.home_thread).is_pulsed st.now) with
        | ok x =>
          have hstep : (M.single_shard_read i c r o interruptor st).acc = st.acc ++ [x] := by
            simp [multistore_ptr_t.single_shard_read, hsv, he, hx, fanout_t.step]
          rw [hstep] at h1
          refine ⟨i :: shards, x :: rs, by simpa using h1, ?_, ?_⟩
          · simp only [List.filter_cons, he, Bool.not_false, if_true]
            exact h2.cons₂ i
          · exact List.Forall₂.cons ⟨sv, _, hsv, hx⟩ h3
        | interrupted =>
          have hstep : (M.single_shard_read i c r o interruptor st).acc = st.acc := by
            simp [multistore_ptr_t.single_shard_read, hsv, he, hx, fanout_t.step]
          rw [hstep] at h1
          refine ⟨shards, rs, h1, ?_, h3⟩
          simp only [List.filter_cons, he, Bool.not_false, if_true]
          exact h2.cons i
        | aborted =>
          have hstep : (M.single_shard_read i c r o interruptor st).acc = st.acc := by
            simp [multistore_ptr_t.single_shard_read, hsv, he, hx, fanout_t.step]
          rw [hstep] at h1
          refine ⟨shards, rs, h1, ?_, h3⟩
          simp only [List.filter_cons, he, Bool.not_false, if_true]
          exact h2.cons i
        | blocked =>
          have hstep : (M.single_shard_read i c r o interruptor st).acc = st.acc := by
            simp [multistore_ptr_t.single_shard_read, hsv, he, hx, fanout_t.step]
          rw [hstep] at h1
          refine ⟨shards, rs, h1, ?_, h3⟩
          simp only [List.filter_cons, he, Bool.not_false, if_true]
          exact h2.cons i

/-- The fan-out of `send_multistore_backfill` when every store of the
schedule delivers its metainfo, whatever the state of the interruptor. -/
theorem backfill_fanout_deliver_always (M : multistore_ptr_t P)
    (f : region_map_t κ P.binary_blob_t → Bool) (start_point : region_map_t κ Nat)
    (interruptor : signal_t) (metainfo : Nat → region_map_t κ P.binary_blob_t) :
    ∀ (sched : List Nat) (st : fanout_t P (backfill_acc_t P)),
      (∀ i ∈ sched, ∃ sv, M.store_views[i]? = some sv ∧
        ∀ p, sv.send_backfill_metainfo (start_point.mask (M.get_region i)) p
          = some (metainfo i)) →
      (pmap sched (fun i => M.single_shard_backfill i f start_point interruptor) st).acc =
        { helper := (sched.map metainfo).foldl
            (fun o m => o.bind (fun h2 => should_backfill f h2 m)) st.acc.helper,
          arrived := st.acc.arrived ++ sched } := by
  intro sched
  induction sched with
  | nil => intro st _; cases st with | mk now log raised acc => cases acc; simp [pmap]
  | cons i sched ih =>
    intro st hdel
    obtain ⟨sv, hsv, hm⟩ := hdel i (List.mem_cons_self _ _)
    have hstep : M.single_shard_backfill i f start_point interruptor st =
        ⟨st.now + 1, st.log ++ [(i, .send_backfill (start_point.mask (M.get_region i)))],
          st.raised,
          { helper := st.acc.helper.bind (fun h => h.should_backfill f (metainfo i)),
            arrived := st.acc.arrived ++ [i] }⟩ := by
      simp only [multistore_ptr_t.single_shard_backfill, hsv, hm, fanout_t.step]
    simp only [pmap, List.foldl_cons] at ih ⊢
    rw [hstep, ih _ (fun j hj => hdel j (List.mem_cons_of_mem _ hj))]
    simp

/-- The stores of the two-shard aggregator deliver their blob on every key to
`should_backfill`. -/
theorem toy_send_backfill_metainfo (i : Nat) (sv : store_view_t toy_protocol)
    (h : toy_multistore.store_views[i]? = some sv) (p : Bool) :
    sv.send_backfill_metainfo (toy_start_point.mask (toy_multistore.get_region i)) p
      = some (toy_delivered i) := by
  rcases i with _ | _ | i
  · simp [toy_multistore, multistore_ptr_t.create, initialize_store_views,
      do_initialize_slot] at h
    subst h
    simp only [store_view_t.send_backfill_metainfo, toy_store, Bool.false_eq_true,
      if_false, Option.map_some']
    congr 1; funext k
    simp [region_map_t.mask, toy_delivered, region_intersection, store_view_t.get_region]
  · simp [toy_multistore, multistore_ptr_t.create, initialize_store_views,
      do_initialize_slot] at h
    subst h
    simp only [store_view_t.send_backfill_metainfo, toy_store, Bool.false_eq_true,
      if_false, Option.map_some']
    congr 1; funext k
    simp [region_map_t.mask, toy_delivered, region_intersection, store_view_t.get_region]
  · simp [toy_multistore, multistore_ptr_t.create, initialize_store_views] at h

/-- The stores of the sharded aggregator deliver their blob on the keys of
their shard to `should_backfill`. -/
theorem sharded_send_backfill_metainfo (i : Nat) (sv : store_view_t toy_protocol)
    (h : sharded_multistore.store_views[i]? = some sv) (p : Bool) :
    sv.send_backfill_metainfo (toy_start_point.mask (sharded_multistore.get_region i)) p
      = some (sharded_delivered i) := by
  rcases i with _ | _ | i
  · simp [sharded_multistore, multistore_ptr_t.create, initialize_store_views,
      do_initialize_slot] at h
    subst h
    simp only [store_view_t.send_backfill_metainfo, toy_sharded_store, toy_store,
      Bool.false_eq_true, if_false, Option.map_some']
    congr 1
  · simp [sharded_multistore, multistore_ptr_t.create, initialize_store_views,
      do_initialize_slot] at h
    subst h
    simp only [store_view_t.send_backfill_metainfo, toy_sharded_store, toy_store,
      Bool.false_eq_true, if_false, Option.map_some']
    congr 1
  · simp [sharded_multistore, multistore_ptr_t.create, initialize_store_views] at h

/-- The maps the sharded aggregator delivers live on the keys of their shard. -/
theorem sharded_delivered_domain (i : Nat) :
    (sharded_delivered i).get_domain ⊆ toy_subspace i 2 :=
  get_domain_mask_subset _ _

/-- When no store raises an interruption under an unpulsed signal and the
interruptor is not pulsed at the join, `read` returns normally and the
responses handed to `multistore_unshard` are, for the shards whose
`get_region(i)` meets the request region and for no other shard, one response
each: the answer of store `i` to the request sharded to
`get_region(i) ∩ request region`.  The same holds for `write` when its
`push_back`s come one after the other: none overlaps, or all stores live on
one thread. -/
theorem read_and_serial_write_collect_each_response (M : multistore_ptr_t P)
    (c : metainfo_checker_t κ) (nm : region_map_t κ P.binary_blob_t) (r : P.read_t)
    (w : P.write_t) (t o : Nat) (interruptor : signal_t) (sched : List Nat)
    (overlap : Nat → Bool)
    (hsched : sched.Perm (List.range M.num_stores))
    (hnp : interruptor.is_pulsed M.num_stores = false)
    (hcontract : ∀ (i : Nat) (sv : store_view_t P) (op : store_op),
      M.store_views[i]? = some sv → sv.raises op false = false)
    (hser : (∀ i, overlap i = false) ∨
      ∃ d, ∀ (i : Nat) (sv : store_view_t P), M.store_views[i]? = some sv →
        sv.home_thread = d) :
    (∃ shards : List Nat,
      shards.Perm ((List.range M.num_stores).filter (fun i => !region_is_empty
        (region_intersection (M.get_region i) (P.read_get_region r)))) ∧
      List.Forall₂ (fun i x => ∃ sv, M.store_views[i]? = some sv ∧
          sv.read (c.mask (M.get_region i))
            (P.read_shard r (region_intersection (M.get_region i) (P.read_get_region r)))
            o false = .ok x)
        shards (M.read_fanout c r o interruptor sched).acc ∧
      M.read c r o M.num_stores interruptor sched =
        .ok (P.read_multistore_unshard r (M.read_fanout c r o interruptor sched).acc)) ∧
    (∃ shards : List Nat,
      shards.Perm ((List.range M.num_stores).filter (fun i => !region_is_empty
        (region_intersection (M.get_region i) (P.write_get_region w)))) ∧
      List.Forall₂ (fun i x => ∃ sv, M.store_views[i]? = some sv ∧
          sv.write (c.mask (M.get_region i)) (nm.mask (M.get_region i))
            (P.write_shard w (region_intersection (M.get_region i) (P.write_get_region w)))
            t o false = .ok x)
        shards (M.write_fanout c nm w t o interruptor sched overlap).acc.responses ∧
      M.write c nm w t o M.num_stores interruptor sched overlap =
        .ok (P.write_multistore_unshard w
          (M.write_fanout c nm w t o interruptor sched overlap).acc.responses)) := by
  have hslot : ∀ i ∈ sched, ∃ sv, M.store_views[i]? = some sv :=
    fun i hi => sched_slot M hsched hi
  have hlen := sched_length hsched
  constructor
  · obtain ⟨rs, h1, h2⟩ := read_fanout_responses M c r o interruptor
      (fun i sv h => hcontract i sv .read h) sched (fanout_t.start []) hslot
      (by simpa [fanout_t.start, hlen] using hnp)
    have hacc : (M.read_fanout c r o interruptor sched).acc = rs := by
      simpa [multistore_ptr_t.read_fanout, fanout_t.start] using h1
    refine ⟨_, hsched.filter _, by rw [hacc]; exact h2, ?_⟩
    have hnow := (read_fanout_trace M c r o interruptor sched hslot).2.2
    rw [hlen] at hnow
    simp [multistore_ptr_t.read, hnow, hnp]
  · obtain ⟨rs, h1, h2⟩ := write_fanout_responses M c nm w t o interruptor overlap
      (fun i sv h => hcontract i sv .write h) sched (fanout_t.start write_responses_t.empty)
      hslot (by simpa [fanout_t.start, hlen] using hnp)
      (by
        rcases hser with h | ⟨d, hd⟩
        · exact Or.inl h
        · exact Or.inr ⟨d, hd, Or.inl rfl⟩)
    have hacc : (M.write_fanout c nm w t o interruptor sched overlap).acc.responses = rs := by
      simpa [multistore_ptr_t.write_fanout, fanout_t.start, write_responses_t.empty] using h1
    refine ⟨_, hsched.filter _, by rw [hacc]; exact h2, ?_⟩
    have hnow := (write_fanout_trace M c nm w t o interruptor sched overlap hslot).2.2
    rw [hlen] at hnow
    simp [multistore_ptr_t.write, hnow, hnp]

/-- A slot that is the subview of a store over a mask that includes the region
`g`, the store raising neither in `set_metainfo` nor in `get_metainfo`: given
a metainfo masked to `g` it holds it, and answers `get_metainfo` with it. -/
theorem aligned_slot_holds_metainfo (s : store_t P) (mask g : Finset κ) (hg : g ⊆ mask)
    (hset : ∀ p, s.raises .set_metainfo p = false)
    (hget : ∀ p, s.raises .get_metainfo p = false)
    (m : region_map_t κ P.binary_blob_t) (p : Bool) :
    ∃ sv2, (store_view_t.subview (.store s) mask).set_metainfo (m.mask g) p = .ok sv2 ∧
      ∀ q, sv2.get_metainfo q = .ok (m.mask g) := by
  refine ⟨.subview (.store { s with metainfo := (m.mask g).mask mask }) mask, ?_, ?_⟩
  · simp [store_view_t.set_metainfo, hset, outcome.bind]
  · intro q
    have hq : s.raises .get_metainfo q = false := hget q
    simp only [store_view_t.get_metainfo, hq, Bool.false_eq_true, if_false, outcome.bind]
    congr 1
    funext k
    by_cases hk : k ∈ g
    · simp [region_map_t.mask, hk, hg hk]
    · simp [region_map_t.mask, hk]

end lemmas

/-! ## The claims -/

section claims

variable {κ : Type} [DecidableEq κ] {P : protocol_t κ}

open multistore_send_backfill_should_backfill_t

/-- C1, as amended: on a rendezvous for `n ≥ 1` shards (countdown `n`, unset
promise), whatever metainfos the `n` per-shard handlers arrive with and in
whatever order, `should_backfill_func_` has been called exactly once when all
`n` have arrived, and not at all after any `k < n` of them. -/
theorem should_backfill_invoked_exactly_once (n : Nat) (hn : 0 < n)
    (start_point_region : Finset κ) (f : region_map_t κ P.binary_blob_t → Bool)
    (metainfos : List (region_map_t κ P.binary_blob_t)) (hlen : metainfos.length = n) :
    (∃ h, arrivals f (create n start_point_region) metainfos = .ok h ∧
      h.invocations.length = 1) ∧
    ∀ k, k < n → ∃ h, arrivals f (create n start_point_region) (metainfos.take k) = .ok h ∧
      h.invocations.length = 0 := by
  constructor
  · have hne : metainfos ≠ [] := by
      intro h0; rw [h0] at hlen; simp at hlen; omega
    refine ⟨_, arrivals_last f metainfos (create n start_point_region) ?_ hne, ?_⟩
    · simp [create, hlen]
    · simp [create]
  · intro k hk
    refine ⟨_, arrivals_before f (metainfos.take k) (create n start_point_region) ?_, ?_⟩
    · simp only [create, List.length_take, hlen]
      have : min k n = k := Nat.min_eq_left (Nat.le_of_lt hk)
      rw [this]; exact_mod_cast hk
    · simp [create]

/-- Witness for C1: a rendezvous of two shards. -/
theorem should_backfill_invoked_exactly_once_witness :
    (0 < 2 ∧ toy_metainfos.length = 2) ∧
    ((∃ h, arrivals (P := toy_protocol) (fun _ => true) (create 2 Finset.univ)
        toy_metainfos = .ok h ∧ h.invocations.length = 1) ∧
    ∀ k, k < 2 → ∃ h, arrivals (P := toy_protocol) (fun _ => true) (create 2 Finset.univ)
        (List.take k toy_metainfos) = .ok h ∧
      h.invocations.length = 0) :=
  ⟨⟨by decide, rfl⟩,
    should_backfill_invoked_exactly_once 2 (by decide) Finset.univ (fun _ => true)
      toy_metainfos rfl⟩

/-- Counterexample for C1 as stated: on the aggregator of no shard all `0`
shards have delivered, `should_backfill` has been called `0` times, and
`send_multistore_backfill` aborts on the `guarantee` of `get_result`. -/
theorem should_backfill_not_invoked_without_shards :
    empty_multistore.num_stores = 0 ∧
    (∃ h, (empty_multistore.send_multistore_backfill_fanout (fun _ => none) (fun _ => true)
        ⟨none⟩ []).acc.helper = .ok h ∧ h.invocations.length = 0) ∧
    empty_multistore.send_multistore_backfill (fun _ => none) (fun _ => true) 0 ⟨none⟩ []
      = .aborted :=
  ⟨rfl, ⟨_, rfl, rfl⟩, by decide⟩

/-- C2: in a `send_multistore_backfill` whose interruptor is not pulsed and in
which every shard delivers its metainfo, the rendezvous ends normally, and
any value `v` that the caller's `should_backfill` returned (exactly one call
when there is a shard) is the value the call returns and the value every one
of the per-shard handlers returns to its store. -/
theorem send_backfill_returns_should_backfill_value [Fintype κ] (M : multistore_ptr_t P)
    (start_point : region_map_t κ Nat) (f : region_map_t κ P.binary_blob_t → Bool)
    (interruptor : signal_t) (sched : List Nat)
    (metainfo : Nat → region_map_t κ P.binary_blob_t)
    (hsched : sched.Perm (List.range M.num_stores))
    (hpre : start_point.get_domain ⊆ M.region)
    (hnp : interruptor.is_pulsed M.num_stores = false)
    (hdeliver : ∀ i sv, M.store_views[i]? = some sv →
      sv.send_backfill_metainfo (start_point.mask (M.get_region i)) false
        = some (metainfo i)) :
    ∃ h, (M.send_multistore_backfill_fanout start_point f interruptor sched).acc.helper
        = .ok h ∧
      (0 < M.num_stores → h.invocations.length = 1) ∧
      ∀ arg v, (arg, v) ∈ h.invocations →
        v = f arg ∧
        M.send_multistore_backfill start_point f M.num_stores interruptor sched = .ok v ∧
        M.should_backfill_results start_point f interruptor sched
          = sched.map (fun i => (i, some v)) := by
  have hlen := sched_length hsched
  have hfan := backfill_fanout_deliver M f start_point interruptor metainfo sched
    (fanout_t.start
      { helper := .ok (multistore_send_backfill_should_backfill_t.create M.num_stores
          start_point.get_domain),
        arrived := [] })
    (fun i hi => by
      obtain ⟨sv, hsv⟩ := sched_slot M hsched hi
      exact ⟨sv, hsv, hdeliver i sv hsv⟩)
    (by simpa [fanout_t.start, hlen] using hnp)
  have hhelper : (M.send_multistore_backfill_fanout start_point f interruptor sched).acc.helper
      = arrivals f (create M.num_stores start_point.get_domain) (sched.map metainfo) := by
    unfold multistore_ptr_t.send_multistore_backfill_fanout; rw [hfan]; rfl
  have harrived : (M.send_multistore_backfill_fanout start_point f interruptor sched).acc.arrived
      = sched := by
    unfold multistore_ptr_t.send_multistore_backfill_fanout; rw [hfan]; rfl
  have hnow : (M.send_multistore_backfill_fanout start_point f interruptor sched).now
      = M.num_stores := by
    unfold multistore_ptr_t.send_multistore_backfill_fanout; rw [hfan]
    simp [fanout_t.start, hlen]
  clear hfan
  by_cases hn : M.num_stores = 0
  · have hs : sched = [] := by
      apply List.eq_nil_of_length_eq_zero; rw [hlen, hn]
    subst hs
    refine ⟨create M.num_stores start_point.get_domain, ?_, ?_, ?_⟩
    · rw [hhelper]; rfl
    · intro h0; rw [hn] at h0; exact absurd h0 (Nat.lt_irrefl 0)
    · intro arg v hmem; simp [create] at hmem
  · have hne : sched.map metainfo ≠ [] := by
      intro h0
      have h1 := congrArg List.length h0
      rw [List.length_map, hlen, List.length_nil] at h1
      exact hn h1
    have harr := arrivals_last f (sched.map metainfo)
      (create (P := P) M.num_stores start_point.get_domain)
      (by simp [create, hlen]) hne
    rw [← hhelper] at harr
    refine ⟨_, harr, ?_, ?_⟩
    · intro _; simp [create]
    · intro arg v hmem
      simp only [create, List.nil_append, List.mem_singleton, Prod.mk.injEq] at hmem
      obtain ⟨harg, hv⟩ := hmem
      have hsup : region_is_superset M.get_multistore_joined_region start_point.get_domain
          = true := by
        simp [region_is_superset, multistore_ptr_t.get_multistore_joined_region, hpre]
      refine ⟨?_, ?_, ?_⟩
      · rw [hv, harg]
      · simp only [multistore_ptr_t.send_multistore_backfill, ne_eq, not_true_eq_false,
          if_false, hsup, Bool.not_true, Bool.false_eq_true, harr, outcome.bind,
          promise_t.is_pulsed, Option.isSome_some, Bool.and_false, hnow, hnp,
          get_result, promise_t.wait, if_true, hv]
        rfl
      · simp only [multistore_ptr_t.should_backfill_results, harr, harrived,
          should_backfill_result, promise_t.wait, hv]
        rfl

/-- Witness for C2: the two-shard aggregator, shard 1 arriving first. -/
theorem send_backfill_returns_should_backfill_value_witness :
    ([1, 0].Perm (List.range toy_multistore.num_stores) ∧
      toy_start_point.get_domain ⊆ toy_multistore.region ∧
      signal_t.is_pulsed ⟨none⟩ toy_multistore.num_stores = false) ∧
    ∃ h, (toy_multistore.send_multistore_backfill_fanout toy_start_point (fun _ => true)
        ⟨none⟩ [1, 0]).acc.helper = .ok h ∧
      (0 < toy_multistore.num_stores → h.invocations.length = 1) ∧
      ∀ arg v, (arg, v) ∈ h.invocations →
        v = (fun _ => true) arg ∧
        toy_multistore.send_multistore_backfill toy_start_point (fun _ => true)
          toy_multistore.num_stores ⟨none⟩ [1, 0] = .ok v ∧
        toy_multistore.should_backfill_results toy_start_point (fun _ => true) ⟨none⟩ [1, 0]
          = [1, 0].map (fun i => (i, some v)) :=
  ⟨⟨by decide, by decide, rfl⟩,
    send_backfill_returns_should_backfill_value toy_multistore toy_start_point
      (fun _ => true) ⟨none⟩ [1, 0] toy_delivered (by decide) (by decide) rfl
      (by
        intro i sv h
        rcases i with _ | _ | i
        · simp [toy_multistore, multistore_ptr_t.create, initialize_store_views,
            do_initialize_slot] at h
          subst h
          simp only [store_view_t.send_backfill_metainfo, toy_store, Bool.false_eq_true,
            if_false, Option.map_some']
          congr 1; funext k
          simp [region_map_t.mask, toy_delivered, region_intersection, store_view_t.get_region]
        · simp [toy_multistore, multistore_ptr_t.create, initialize_store_views,
            do_initialize_slot] at h
          subst h
          simp only [store_view_t.send_backfill_metainfo, toy_store, Bool.false_eq_true,
            if_false, Option.map_some']
          congr 1; funext k
          simp [region_map_t.mask, toy_delivered, region_intersection, store_view_t.get_region]
        · simp [toy_multistore, multistore_ptr_t.create, initialize_store_views] at h)⟩

/-- C5: in `read`, `write`, `receive_backfill` and `reset_all_data`, for
every shard `i` the record of the fan-out holds exactly one entry of shard
`i`: the release of token `i` without a call of store `i` when `get_region(i)`
does not meet the region of the request (chunk, subregion), and otherwise the
one call of the matching operation on store `i`, which takes the token.
Responses come from such calls only, so there are at most as many as shards
that meet the region, also when appends of `write` run at the same time. -/
theorem token_released_or_handed_to_store (M : multistore_ptr_t P)
    (c : metainfo_checker_t κ) (nm : region_map_t κ P.binary_blob_t) (r : P.read_t)
    (w : P.write_t) (t o : Nat) (chunk : P.backfill_chunk_t) (subregion : Finset κ)
    (interruptor : signal_t) (sched : List Nat) (overlap : Nat → Bool)
    (hsched : sched.Perm (List.range M.num_stores)) (i : Nat) (hi : i < M.num_stores) :
    ((M.read_fanout c r o interruptor sched).log.filter (fun p => decide (p.1 = i)) =
      [(i, if region_is_empty (region_intersection (M.get_region i) (P.read_get_region r))
        then store_call_t.token_reset
        else store_call_t.read (c.mask (M.get_region i))
          (P.read_shard r (region_intersection (M.get_region i) (P.read_get_region r))) o)]) ∧
    ((M.write_fanout c nm w t o interruptor sched overlap).log.filter (fun p => decide (p.1 = i)) =
      [(i, if region_is_empty (region_intersection (M.get_region i) (P.write_get_region w))
        then store_call_t.token_reset
        else store_call_t.write (c.mask (M.get_region i)) (nm.mask (M.get_region i))
          (P.write_shard w (region_intersection (M.get_region i) (P.write_get_region w)))
          t o)]) ∧
    ((M.receive_backfill_fanout chunk interruptor sched).log.filter
        (fun p => decide (p.1 = i)) =
      [(i, if region_is_empty
          (region_intersection (M.get_region i) (P.chunk_get_region chunk))
        then store_call_t.token_reset
        else store_call_t.receive_backfill (P.chunk_shard chunk
          (region_intersection (M.get_region i) (P.chunk_get_region chunk))))]) ∧
    ((M.reset_all_data_fanout subregion nm interruptor sched).log.filter
        (fun p => decide (p.1 = i)) =
      [(i, if region_is_empty (region_intersection (M.get_region i) subregion)
        then store_call_t.token_reset
        else store_call_t.reset_data (region_intersection subregion (M.get_region i))
          (nm.mask (M.get_region i)))]) ∧
    (M.read_fanout c r o interruptor sched).acc.length ≤
      (sched.filter (fun j => !region_is_empty
        (region_intersection (M.get_region j) (P.read_get_region r)))).length ∧
    (M.write_fanout c nm w t o interruptor sched overlap).acc.responses.length ≤
      (sched.filter (fun j => !region_is_empty
        (region_intersection (M.get_region j) (P.write_get_region w)))).length := by
  have hslot : ∀ j ∈ sched, ∃ sv, M.store_views[j]? = some sv :=
    fun j hj => sched_slot M hsched hj
  have hnd := sched_nodup hsched
  have hmem := sched_mem hsched hi
  obtain ⟨_, hr, _⟩ := read_fanout_trace M c r o interruptor sched hslot
  obtain ⟨_, hw, _⟩ := write_fanout_trace M c nm w t o interruptor sched overlap hslot
  obtain ⟨_, hb, _⟩ := receive_backfill_fanout_trace M chunk interruptor sched hslot
  obtain ⟨_, hd, _⟩ := reset_all_data_fanout_trace M subregion nm interruptor sched hslot
  refine ⟨?_, ?_, ?_, ?_, ?_, ?_⟩
  · rw [hr]; exact filter_shard_map _ i sched hnd hmem
  · rw [hw]; exact filter_shard_map _ i sched hnd hmem
  · rw [hb]; exact filter_shard_map _ i sched hnd hmem
  · rw [hd]; exact filter_shard_map _ i sched hnd hmem
  · have h := read_fanout_responses_le M c r o interruptor sched (fanout_t.start [])
    simpa [multistore_ptr_t.read_fanout, fanout_t.start] using h
  · have h := write_fanout_responses_le M { new_metainfo := nm, metainfo_checker := c }
      w t o interruptor overlap sched (fanout_t.start write_responses_t.empty)
    simpa [multistore_ptr_t.write_fanout, fanout_t.start, write_responses_t.empty] using h

/-- Witness for C5: shard 1 of the two-shard aggregator and a request over
the keys `1` and `2`. -/
theorem token_released_or_handed_to_store_witness :
    ([1, 0].Perm (List.range toy_multistore.num_stores) ∧ 1 < toy_multistore.num_stores) ∧
    (((toy_multistore.read_fanout toy_checker toy_request 0 ⟨none⟩ [1, 0]).log.filter (fun p =>
        decide (p.1 = 1)) =
      [(1, if region_is_empty (region_intersection (toy_multistore.get_region 1)
          (toy_protocol.read_get_region toy_request))
        then store_call_t.token_reset
        else store_call_t.read (toy_checker.mask (toy_multistore.get_region 1))
          (toy_protocol.read_shard toy_request (region_intersection (toy_multistore.get_region 1)
              (toy_protocol.read_get_region toy_request))) 0)]) ∧
    ((toy_multistore.write_fanout toy_checker toy_blobs toy_request 0 0 ⟨none⟩ [1, 0]
        (fun _ => true)).log.filter
        (fun p => decide (p.1 = 1)) =
      [(1, if region_is_empty (region_intersection (toy_multistore.get_region 1)
          (toy_protocol.write_get_region toy_request))
        then store_call_t.token_reset
        else store_call_t.write (toy_checker.mask (toy_multistore.get_region 1)) (toy_blobs.mask
            (toy_multistore.get_region 1))
          (toy_protocol.write_shard toy_request (region_intersection (toy_multistore.get_region
              1) (toy_protocol.write_get_region toy_request)))
          0 0)]) ∧
    ((toy_multistore.receive_backfill_fanout toy_request ⟨none⟩ [1, 0]).log.filter
        (fun p => decide (p.1 = 1)) =
      [(1, if region_is_empty
          (region_intersection (toy_multistore.get_region 1) (toy_protocol.chunk_get_region
              toy_request))
        then store_call_t.token_reset
        else store_call_t.receive_backfill (toy_protocol.chunk_shard toy_request
          (region_intersection (toy_multistore.get_region 1) (toy_protocol.chunk_get_region
              toy_request))))]) ∧
    ((toy_multistore.reset_all_data_fanout toy_request toy_blobs ⟨none⟩ [1, 0]).log.filter
        (fun p => decide (p.1 = 1)) =
      [(1, if region_is_empty (region_intersection (toy_multistore.get_region 1) toy_request)
        then store_call_t.token_reset
        else store_call_t.reset_data (region_intersection toy_request (toy_multistore.get_region 1))
          (toy_blobs.mask (toy_multistore.get_region 1)))]) ∧
    (toy_multistore.read_fanout toy_checker toy_request 0 ⟨none⟩ [1, 0]).acc.length ≤
      ([1, 0].filter (fun j => !region_is_empty
        (region_intersection (toy_multistore.get_region j) (toy_protocol.read_get_region
            toy_request)))).length ∧
    (toy_multistore.write_fanout toy_checker toy_blobs toy_request 0 0 ⟨none⟩ [1, 0]
        (fun _ => true)).acc.responses.length ≤
      ([1, 0].filter (fun j => !region_is_empty
        (region_intersection (toy_multistore.get_region j) (toy_protocol.write_get_region
            toy_request)))).length) :=
  ⟨⟨by decide, by decide⟩,
    token_released_or_handed_to_store toy_multistore toy_checker toy_blobs toy_request
      toy_request 0 0 toy_request toy_request ⟨none⟩ [1, 0] (fun _ => true) (by decide) 1
      (by decide)⟩

/-- C10: every call that `set_all_metainfos`, `read`, `write`,
`send_multistore_backfill`, `receive_backfill` or `reset_all_data` makes on
store `i` carries only regions inside `get_region(i)` (request, chunk and
subregion regions, and the domains of the metainfo, checker and start-point
maps), given that `x.shard(r)` has its region inside `r`. -/
theorem dispatched_regions_within_shard [Fintype κ] (M : multistore_ptr_t P)
    (c : metainfo_checker_t κ) (nm : region_map_t κ P.binary_blob_t) (r : P.read_t)
    (w : P.write_t) (t o : Nat) (chunk : P.backfill_chunk_t) (subregion : Finset κ)
    (sp : region_map_t κ Nat) (f : region_map_t κ P.binary_blob_t → Bool)
    (interruptor : signal_t) (sched : List Nat) (overlap : Nat → Bool)
    (hsched : sched.Perm (List.range M.num_stores))
    (hread : ∀ x rg, P.read_get_region (P.read_shard x rg) ⊆ rg)
    (hwrite : ∀ x rg, P.write_get_region (P.write_shard x rg) ⊆ rg)
    (hchunk : ∀ x rg, P.chunk_get_region (P.chunk_shard x rg) ⊆ rg)
    (i : Nat) (call : store_call_t P)
    (hcall : (i, call) ∈ (M.set_all_metainfos_fanout nm o interruptor sched).log ∨
      (i, call) ∈ (M.read_fanout c r o interruptor sched).log ∨
      (i, call) ∈ (M.write_fanout c nm w t o interruptor sched overlap).log ∨
      (i, call) ∈ (M.send_multistore_backfill_fanout sp f interruptor sched).log ∨
      (i, call) ∈ (M.receive_backfill_fanout chunk interruptor sched).log ∨
      (i, call) ∈ (M.reset_all_data_fanout subregion nm interruptor sched).log) :
    ∀ rg ∈ call.regions, rg ⊆ M.get_region i := by
  have hslot : ∀ j ∈ sched, ∃ sv, M.store_views[j]? = some sv :=
    fun j hj => sched_slot M hsched hj
  have hl : ∀ x : Finset κ, region_intersection (M.get_region i) x ⊆ M.get_region i :=
    fun x => Finset.inter_subset_left
  rcases hcall with h | h | h | h | h | h
  · rw [(set_all_metainfos_fanout_trace M nm o interruptor sched hslot).2.1,
      List.mem_map] at h
    obtain ⟨j, _, hj⟩ := h
    simp only [Prod.mk.injEq] at hj
    obtain ⟨rfl, rfl⟩ := hj
    intro rg hrg
    simp only [store_call_t.regions, List.mem_singleton] at hrg
    subst hrg
    exact get_domain_mask_subset _ _
  · rw [(read_fanout_trace M c r o interruptor sched hslot).2.1, List.mem_map] at h
    obtain ⟨j, _, hj⟩ := h
    simp only [Prod.mk.injEq] at hj
    obtain ⟨rfl, rfl⟩ := hj
    intro rg hrg
    split at hrg
    · simp [store_call_t.regions] at hrg
    · simp only [store_call_t.regions, List.mem_cons, List.mem_singleton, List.mem_nil_iff,
        or_false] at hrg
      rcases hrg with rfl | rfl
      · exact checker_mask_subset _ _
      · exact (hread _ _).trans (hl _)
  · rw [(write_fanout_trace M c nm w t o interruptor sched overlap hslot).2.1,
      List.mem_map] at h
    obtain ⟨j, _, hj⟩ := h
    simp only [Prod.mk.injEq] at hj
    obtain ⟨rfl, rfl⟩ := hj
    intro rg hrg
    split at hrg
    · simp [store_call_t.regions] at hrg
    · simp only [store_call_t.regions, List.mem_cons, List.mem_singleton, List.mem_nil_iff,
        or_false] at hrg
      rcases hrg with rfl | rfl | rfl
      · exact checker_mask_subset _ _
      · exact get_domain_mask_subset _ _
      · exact (hwrite _ _).trans (hl _)
  · rw [(send_backfill_fanout_trace M sp f interruptor sched hslot).2.1, List.mem_map] at h
    obtain ⟨j, _, hj⟩ := h
    simp only [Prod.mk.injEq] at hj
    obtain ⟨rfl, rfl⟩ := hj
    intro rg hrg
    simp only [store_call_t.regions, List.mem_singleton] at hrg
    subst hrg
    exact get_domain_mask_subset _ _
  · rw [(receive_backfill_fanout_trace M chunk interruptor sched hslot).2.1,
      List.mem_map] at h
    obtain ⟨j, _, hj⟩ := h
    simp only [Prod.mk.injEq] at hj
    obtain ⟨rfl, rfl⟩ := hj
    intro rg hrg
    split at hrg
    · simp [store_call_t.regions] at hrg
    · simp only [store_call_t.regions, List.mem_singleton] at hrg
      subst hrg
      exact (hchunk _ _).trans (hl _)
  · rw [(reset_all_data_fanout_trace M subregion nm interruptor sched hslot).2.1,
      List.mem_map] at h
    obtain ⟨j, _, hj⟩ := h
    simp only [Prod.mk.injEq] at hj
    obtain ⟨rfl, rfl⟩ := hj
    intro rg hrg
    split at hrg
    · simp [store_call_t.regions] at hrg
    · simp only [store_call_t.regions, List.mem_cons, List.mem_singleton, List.mem_nil_iff,
        or_false] at hrg
      rcases hrg with rfl | rfl
      · exact Finset.inter_subset_right
      · exact get_domain_mask_subset _ _

/-- Witness for C10: the call of `read` on store 1 of the two-shard
aggregator, for a request over the keys `1` and `2`. -/
theorem dispatched_regions_within_shard_witness :
    ([1, 0].Perm (List.range toy_multistore.num_stores) ∧
      (∀ x rg, toy_protocol.read_get_region (toy_protocol.read_shard x rg) ⊆ rg) ∧
      (∀ x rg, toy_protocol.write_get_region (toy_protocol.write_shard x rg) ⊆ rg) ∧
      (∀ x rg, toy_protocol.chunk_get_region (toy_protocol.chunk_shard x rg) ⊆ rg) ∧
      (1, store_call_t.read (toy_checker.mask (toy_multistore.get_region 1))
          (toy_protocol.read_shard toy_request
            (region_intersection (toy_multistore.get_region 1) toy_request)) 0) ∈
        (toy_multistore.read_fanout toy_checker toy_request 0 ⟨none⟩ [1, 0]).log) ∧
    ∀ rg ∈ (store_call_t.read (toy_checker.mask (toy_multistore.get_region 1))
        (toy_protocol.read_shard toy_request
          (region_intersection (toy_multistore.get_region 1) toy_request)) 0 :
        store_call_t toy_protocol).regions,
      rg ⊆ toy_multistore.get_region 1 :=
  have hmem : (1, store_call_t.read (toy_checker.mask (toy_multistore.get_region 1))
      (toy_protocol.read_shard toy_request
        (region_intersection (toy_multistore.get_region 1) toy_request)) 0) ∈
      (toy_multistore.read_fanout toy_checker toy_request 0 ⟨none⟩ [1, 0]).log := by
    rw [(read_fanout_trace toy_multistore toy_checker toy_request 0 ⟨none⟩ [1, 0]
      (fun j hj => sched_slot toy_multistore (by decide) hj)).2.1]
    refine List.mem_map.mpr ⟨1, by decide, ?_⟩
    rw [if_neg (by decide)]
  ⟨⟨by decide, fun _ _ => Finset.inter_subset_right, fun _ _ => Finset.inter_subset_right,
      fun _ _ => Finset.inter_subset_right, hmem⟩,
    dispatched_regions_within_shard toy_multistore toy_checker toy_blobs toy_request
      toy_request 0 0 toy_request toy_request toy_start_point (fun _ => true) ⟨none⟩ [1, 0]
      (fun _ => true) (by decide) (fun _ _ => Finset.inter_subset_right)
      (fun _ _ => Finset.inter_subset_right) (fun _ _ => Finset.inter_subset_right)
      1 _ (Or.inr (Or.inl hmem))⟩

/-- C7: when every store answers `get_metainfo` with a map `metainfo i` whose
domain includes `get_region(i)`, `get_all_metainfos` returns a map whose
domain is exactly the region of the aggregator and which, on each
`get_region(i)`, is the metainfo of shard `i` masked to `get_region(i)` and
transformed from blobs to version ranges. -/
theorem get_all_metainfos_domain_and_values [Fintype κ] (M : multistore_ptr_t P) (o : Nat)
    (interruptor : signal_t) (metainfo : Nat → region_map_t κ P.binary_blob_t)
    (sched : List Nat) (hsched : sched.Perm (List.range M.num_stores))
    (hget : ∀ (i : Nat) (sv : store_view_t P), M.store_views[i]? = some sv →
      ∀ p, sv.get_metainfo p = .ok (metainfo i))
    (hdom : ∀ i, i < M.num_stores → M.get_region i ⊆ (metainfo i).get_domain) :
    ∃ ret, M.get_all_metainfos o M.num_stores interruptor sched = .ok ret ∧
      ret.get_domain = M.region ∧
      ∀ i, i < M.num_stores →
        ret.mask (M.get_region i) =
          region_map_transform ((metainfo i).mask (M.get_region i)) P.blob_get := by
  obtain ⟨hd, heq⟩ := get_all_metainfos_eq M o interruptor sched
  have hval := get_all_metainfos_fanout_value M o interruptor metainfo sched hsched hget
  refine ⟨(M.get_all_metainfos_fanout o interruptor sched).acc, ?_, hd, ?_⟩
  · have hr : (M.get_all_metainfos_fanout o interruptor sched).raised = false :=
      (get_all_metainfos_fanout_acc M o interruptor metainfo sched
        (fanout_t.start
          (region_map_t.init M.get_multistore_joined_region P.version_range_default))
        (fun i hi => by
          obtain ⟨sv, hsv⟩ := sched_slot M hsched hi
          exact ⟨sv, hsv, hget i sv hsv⟩)).2
    rw [heq]
    simp [hr]
  · intro i hi
    funext k
    by_cases hk : k ∈ M.get_region i
    · have h1 := (hval k).2.2.1 i hi hk
      obtain ⟨b, hb⟩ := (mem_get_domain (metainfo i) k).mp (hdom i hi hk)
      simp only [region_map_t.mask, hk, if_true, region_map_transform, h1, hb]
      rfl
    · simp [region_map_t.mask, region_map_transform, hk]

/-- Witness for C7: the two-shard aggregator. -/
theorem get_all_metainfos_domain_and_values_witness :
    ([1, 0].Perm (List.range toy_multistore.num_stores) ∧
      (∀ (i : Nat) (sv : store_view_t toy_protocol), toy_multistore.store_views[i]? = some sv →
        ∀ p, sv.get_metainfo p = .ok (toy_delivered i)) ∧
      ∀ i, i < toy_multistore.num_stores →
        toy_multistore.get_region i ⊆ (toy_delivered i).get_domain) ∧
    ∃ ret, toy_multistore.get_all_metainfos 0 toy_multistore.num_stores ⟨none⟩ [1, 0]
        = .ok ret ∧
      ret.get_domain = toy_multistore.region ∧
      ∀ i, i < toy_multistore.num_stores →
        ret.mask (toy_multistore.get_region i) =
          region_map_transform ((toy_delivered i).mask (toy_multistore.get_region i))
            toy_protocol.blob_get :=
  have hdom : ∀ i, i < toy_multistore.num_stores →
      toy_multistore.get_region i ⊆ (toy_delivered i).get_domain := by
    intro i _ k _
    exact (mem_get_domain _ k).mpr ⟨_, rfl⟩
  ⟨⟨by decide, toy_get_metainfo, hdom⟩,
    get_all_metainfos_domain_and_values toy_multistore 0 ⟨none⟩ toy_delivered [1, 0]
      (by decide) toy_get_metainfo hdom⟩

/-- C8, as amended: on an aggregator whose shard regions `get_region(i)` cover
its region and whose every slot `i` takes `set_metainfo` of `m` masked to
`get_region(i)` and afterwards answers `get_metainfo` with that same map (the
mask of the slot includes `get_region(i)` and its store holds what is set on
it), `set_all_metainfos(m)` for a map `m` whose domain covers the region,
followed by `get_all_metainfos`, neither interrupted, ends normally and yields
`m` restricted to the region and transformed from blobs to version ranges,
for all schedules of the two fan-outs. -/
theorem set_then_get_all_metainfos [Fintype κ] (M : multistore_ptr_t P)
    (m : region_map_t κ P.binary_blob_t) (o1 o2 : Nat) (i1 i2 : signal_t)
    (s1 s2 : List Nat)
    (hs1 : s1.Perm (List.range M.num_stores)) (hs2 : s2.Perm (List.range M.num_stores))
    (hm : M.region ⊆ m.get_domain)
    (hcover : ∀ k ∈ M.region, ∃ i, i < M.num_stores ∧ k ∈ M.get_region i)
    (hstore : ∀ (i : Nat) (sv : store_view_t P), M.store_views[i]? = some sv →
      ∀ p, ∃ sv2, sv.set_metainfo (m.mask (M.get_region i)) p = .ok sv2 ∧
        ∀ q, sv2.get_metainfo q = .ok (m.mask (M.get_region i))) :
    (M.set_all_metainfos m o1 M.num_stores i1 s1).2 = .ok () ∧
    (M.set_all_metainfos m o1 M.num_stores i1 s1).1.get_all_metainfos o2 M.num_stores i2 s2
      = .ok (region_map_transform (m.mask M.region) P.blob_get) := by
  obtain ⟨hraised, hlen, hslots, _⟩ := set_all_metainfos_fanout_slots M m o1 i1 hstore s1
    (fanout_t.start M.store_views) (sched_nodup hs1)
    (fun i hi => List.mem_range.mp (hs1.mem_iff.mp hi)) rfl (fun _ _ => rfl)
  have hM2 : (M.set_all_metainfos m o1 M.num_stores i1 s1).1 =
      { M with store_views := (M.set_all_metainfos_fanout m o1 i1 s1).acc } := by
    simp [multistore_ptr_t.set_all_metainfos]
  have hacc : (M.set_all_metainfos_fanout m o1 i1 s1).acc.length = M.num_stores := hlen
  constructor
  · have hr : (M.set_all_metainfos_fanout m o1 i1 s1).raised = false := hraised
    simp [multistore_ptr_t.set_all_metainfos, hr]
  · rw [hM2]
    generalize hM2def : ({ M with store_views := (M.set_all_metainfos_fanout m o1 i1 s1).acc } :
      multistore_ptr_t P) = M2
    have hn : M2.num_stores = M.num_stores := by
      rw [← hM2def]; exact hacc
    have hreg : M2.region = M.region := by rw [← hM2def]
    have hgr : ∀ i, M2.get_region i = M.get_region i := by
      intro i
      simp only [multistore_ptr_t.get_region, hn, hreg]
    have hget : ∀ (i : Nat) (sv : store_view_t P), M2.store_views[i]? = some sv →
        ∀ p, sv.get_metainfo p = .ok (m.mask (M.get_region i)) := by
      intro i sv hsv p
      have hi : i < M.num_stores := by
        have := (List.getElem?_eq_some_iff.mp hsv).1
        rw [← hn]; exact this
      obtain ⟨sv2, h1, h2⟩ := hslots i (sched_mem hs1 hi)
      have hsv2 : M2.store_views[i]? = some sv2 := by rw [← hM2def]; exact h1
      rw [hsv] at hsv2
      cases hsv2
      exact h2 p
    have hs2b : s2.Perm (List.range M2.num_stores) := by rw [hn]; exact hs2
    obtain ⟨_, heq⟩ := get_all_metainfos_eq M2 o2 i2 s2
    rw [hn] at heq
    rw [heq]
    have hval := get_all_metainfos_fanout_value M2 o2 i2 (fun i => m.mask (M.get_region i))
      s2 hs2b hget
    have hr : (M2.get_all_metainfos_fanout o2 i2 s2).raised = false :=
      (get_all_metainfos_fanout_acc M2 o2 i2 (fun i => m.mask (M.get_region i)) s2
        (fanout_t.start
          (region_map_t.init M2.get_multistore_joined_region P.version_range_default))
        (fun i hi => by
          obtain ⟨sv, hsv⟩ := sched_slot M2 hs2b hi
          exact ⟨sv, hsv, hget i sv hsv⟩)).2
    simp only [hr, Bool.false_eq_true, if_false]
    congr 1
    funext k
    by_cases hk : k ∈ M.region
    · obtain ⟨i, hi, hki⟩ := hcover k hk
      obtain ⟨b, hb⟩ := (mem_get_domain m k).mp (hm hk)
      rw [(hval k).2.2.1 i (by rw [hn]; exact hi) (by rw [hgr]; exact hki)]
      simp [region_map_transform, region_map_t.mask, hk, hki, hb]
    · rw [(hval k).2.1 (by rw [hreg]; exact hk)]
      simp [region_map_transform, region_map_t.mask, hk]

/-- Witness for C8: the two-shard aggregator and the map that gives every
key the blob `9`. -/
theorem set_then_get_all_metainfos_witness :
    ([1, 0].Perm (List.range toy_multistore.num_stores) ∧
      [0, 1].Perm (List.range toy_multistore.num_stores) ∧
      toy_multistore.region ⊆ toy_blobs.get_domain ∧
      (∀ k ∈ toy_multistore.region,
        ∃ i, i < toy_multistore.num_stores ∧ k ∈ toy_multistore.get_region i) ∧
      ∀ (i : Nat) (sv : store_view_t toy_protocol), toy_multistore.store_views[i]? = some sv →
        ∀ p, ∃ sv2, sv.set_metainfo (toy_blobs.mask (toy_multistore.get_region i)) p
            = .ok sv2 ∧
          ∀ q, sv2.get_metainfo q = .ok (toy_blobs.mask (toy_multistore.get_region i))) ∧
    ((toy_multistore.set_all_metainfos toy_blobs 0 toy_multistore.num_stores ⟨none⟩
        [1, 0]).2 = .ok () ∧
    (toy_multistore.set_all_metainfos toy_blobs 0 toy_multistore.num_stores ⟨none⟩
        [1, 0]).1.get_all_metainfos 0 toy_multistore.num_stores ⟨none⟩ [0, 1]
      = .ok (region_map_transform (toy_blobs.mask toy_multistore.region)
          toy_protocol.blob_get)) :=
  have hm : toy_multistore.region ⊆ toy_blobs.get_domain :=
    fun k _ => (mem_get_domain _ k).mpr ⟨_, rfl⟩
  ⟨⟨by decide, by decide, hm, shards_cover toy_multistore (by decide),
      fun i sv h p => toy_holds_metainfo _ i sv h p⟩,
    set_then_get_all_metainfos toy_multistore toy_blobs 0 0 ⟨none⟩ ⟨none⟩ [1, 0] [0, 1]
      (by decide) (by decide) hm (shards_cover toy_multistore (by decide))
      (fun i sv h p => toy_holds_metainfo _ i sv h p)⟩

/-- C9: for an aggregator `M` made by a constructor and a region `r` inside
its region, the narrowing constructor succeeds, and over the same store states
(store `i` answering `get_metainfo` with `metainfo i`, without interruption)
`get_all_metainfos` of the narrowed aggregator is `get_all_metainfos` of `M`
masked to `r`, for all schedules of the two fan-outs. -/
theorem narrow_get_all_metainfos [Fintype κ] (M : multistore_ptr_t P)
    (hM : M.constructed) (r : Finset κ) (hr : r ⊆ M.region) (o1 o2 : Nat)
    (i1 i2 : signal_t) (s1 s2 : List Nat)
    (hs1 : s1.Perm (List.range M.num_stores)) (hs2 : s2.Perm (List.range M.num_stores))
    (metainfo : Nat → region_map_t κ P.binary_blob_t)
    (hget : ∀ (i : Nat) (sv : store_view_t P), M.store_views[i]? = some sv →
      ∀ p, sv.get_metainfo p = .ok (metainfo i)) :
    ∃ M2 a b, M.narrow r = .ok M2 ∧
      M2.get_all_metainfos o1 M2.num_stores i1 s1 = .ok a ∧
      M.get_all_metainfos o2 M.num_stores i2 s2 = .ok b ∧
      a = b.mask r := by
  have hnarrow : M.narrow r =
      .ok { store_views := initialize_store_views M.store_views r, region := r } := by
    simp [multistore_ptr_t.narrow, region_is_superset, hr]
  generalize hM2def : ({ store_views := initialize_store_views M.store_views r, region := r } :
    multistore_ptr_t P) = M2 at hnarrow
  have hn : M2.num_stores = M.num_stores := by
    rw [← hM2def]; simp [multistore_ptr_t.num_stores, initialize_store_views]
  have hreg : M2.region = r := by rw [← hM2def]
  have hslot2 : ∀ i : Nat,
      M2.store_views[i]? = (M.store_views[i]?).map (do_initialize_slot r) := by
    intro i; rw [← hM2def]; simp [initialize_store_views]
  have hget2 : ∀ (i : Nat) (sv2 : store_view_t P), M2.store_views[i]? = some sv2 →
      ∀ p, sv2.get_metainfo p = .ok
        (match M.store_views[i]? with
          | some sv => (metainfo i).mask (region_intersection r sv.get_region)
          | none => metainfo i) := by
    intro i sv2 h2 p
    rw [hslot2] at h2
    cases hsv : M.store_views[i]? with
    | none => rw [hsv] at h2; simp at h2
    | some sv =>
      rw [hsv] at h2
      simp only [Option.map_some', Option.some.injEq] at h2
      subst h2
      simp [do_initialize_slot, store_view_t.get_metainfo, hget i sv hsv p, outcome.bind]
  have hs1b : s1.Perm (List.range M2.num_stores) := by rw [hn]; exact hs1
  obtain ⟨_, heq2⟩ := get_all_metainfos_eq M2 o1 i1 s1
  obtain ⟨_, heq⟩ := get_all_metainfos_eq M o2 i2 s2
  have hr2 : (M2.get_all_metainfos_fanout o1 i1 s1).raised = false :=
    (get_all_metainfos_fanout_acc M2 o1 i1 _ s1
      (fanout_t.start
        (region_map_t.init M2.get_multistore_joined_region P.version_range_default))
      (fun i hi => by
        obtain ⟨sv, hsv⟩ := sched_slot M2 hs1b hi
        exact ⟨sv, hsv, hget2 i sv hsv⟩)).2
  have hr1 : (M.get_all_metainfos_fanout o2 i2 s2).raised = false :=
    (get_all_metainfos_fanout_acc M o2 i2 metainfo s2
      (fanout_t.start
        (region_map_t.init M.get_multistore_joined_region P.version_range_default))
      (fun i hi => by
        obtain ⟨sv, hsv⟩ := sched_slot M hs2 hi
        exact ⟨sv, hsv, hget i sv hsv⟩)).2
  refine ⟨M2, (M2.get_all_metainfos_fanout o1 i1 s1).acc,
    (M.get_all_metainfos_fanout o2 i2 s2).acc, hnarrow, ?_, ?_, ?_⟩
  · rw [heq2]; simp only [hr2, Bool.false_eq_true, if_false]
  · rw [heq]; simp only [hr1, Bool.false_eq_true, if_false]
  · funext k
    have hv2 := get_all_metainfos_fanout_value M2 o1 i1 _ s1 hs1b hget2 k
    have hv := get_all_metainfos_fanout_value M o2 i2 metainfo s2 hs2 hget k
    by_cases hk : k ∈ r
    · have hkR : k ∈ M.region := hr hk
      simp only [region_map_t.mask, hk, if_true]
      by_cases hn0 : 0 < M.num_stores
      · obtain ⟨i, hi, hki⟩ := P.subspace_cover M.num_stores k hn0
        obtain ⟨sv, hsv⟩ : ∃ sv, M.store_views[i]? = some sv :=
          ⟨M.store_views[i], List.getElem?_eq_getElem hi⟩
        obtain ⟨inner, rg, hsub⟩ := constructed_slots M hM sv (List.getElem?_mem hsv)
        rw [hv2.2.2.1 i (by rw [hn]; exact hi)
            (by simp [multistore_ptr_t.get_region, region_intersection, hreg, hk, hn, hki]),
          hv.2.2.1 i hi
            (by simp [multistore_ptr_t.get_region, region_intersection, hkR, hki])]
        simp only [hsv, region_map_t.mask, region_intersection, Finset.mem_inter, hk,
          true_and]
        by_cases hks : k ∈ sv.get_region
        · simp [hks]
        · have hnone : metainfo i k = none := by
            have hg := hget i sv hsv false
            rw [hsub] at hg
            apply subview_metainfo_outside inner rg false _ hg
            rw [hsub] at hks
            simpa [store_view_t.get_region] using hks
          simp [hks, hnone]
      · have hz : M.num_stores = 0 := by omega
        rw [hv2.2.2.2 (by rw [hreg]; exact hk) (fun i hi => by rw [hn, hz] at hi; omega),
          hv.2.2.2 hkR (fun i hi => by rw [hz] at hi; omega)]
    · rw [hv2.2.1 (by rw [hreg]; exact hk)]
      simp [region_map_t.mask, hk]

/-- Witness for C9: the two-shard aggregator narrowed to the keys `1` and `2`. -/
theorem narrow_get_all_metainfos_witness :
    (toy_multistore.constructed ∧ toy_request ⊆ toy_multistore.region ∧
      [1, 0].Perm (List.range toy_multistore.num_stores) ∧
      [0, 1].Perm (List.range toy_multistore.num_stores) ∧
      ∀ (i : Nat) (sv : store_view_t toy_protocol), toy_multistore.store_views[i]? = some sv →
        ∀ p, sv.get_metainfo p = .ok (toy_delivered i)) ∧
    ∃ M2 a b, toy_multistore.narrow toy_request = .ok M2 ∧
      M2.get_all_metainfos 0 M2.num_stores ⟨none⟩ [1, 0] = .ok a ∧
      toy_multistore.get_all_metainfos 0 toy_multistore.num_stores ⟨none⟩ [0, 1] = .ok b ∧
      a = b.mask toy_request :=
  ⟨⟨multistore_ptr_t.constructed.create _ _ _, by decide, by decide, by decide,
      toy_get_metainfo⟩,
    narrow_get_all_metainfos toy_multistore (multistore_ptr_t.constructed.create _ _ _)
      toy_request (by decide) 0 0 ⟨none⟩ ⟨none⟩ [1, 0] [0, 1] (by decide) (by decide)
      toy_delivered toy_get_metainfo⟩

/-- C14, as amended: the responses that `read` hands to `multistore_unshard`
are in the order in which the per-shard tasks complete.  They are the answers
of the stores of a sub-sequence of the schedule, restricted to the shards that
meet the read region; so they are in shard-index order when the tasks
complete in shard-index order; and when no store raises under an unpulsed
signal and the interruptor is unpulsed at the join, the sub-sequence is the
whole schedule restricted to those shards. -/
theorem read_responses_in_completion_order (M : multistore_ptr_t P)
    (c : metainfo_checker_t κ) (r : P.read_t) (o : Nat) (interruptor : signal_t)
    (sched : List Nat) :
    (∃ shards : List Nat,
      shards.Sublist (sched.filter (fun i => !region_is_empty
        (region_intersection (M.get_region i) (P.read_get_region r)))) ∧
      List.Forall₂ (fun i x => ∃ sv p, M.store_views[i]? = some sv ∧
          sv.read (c.mask (M.get_region i))
            (P.read_shard r (region_intersection (M.get_region i) (P.read_get_region r)))
            o p = .ok x)
        shards (M.read_fanout c r o interruptor sched).acc ∧
      (sched = List.range M.num_stores → shards.Pairwise (fun i j => i < j))) ∧
    (sched.Perm (List.range M.num_stores) →
      interruptor.is_pulsed M.num_stores = false →
      (∀ (i : Nat) (sv : store_view_t P), M.store_views[i]? = some sv →
        sv.raises .read false = false) →
      List.Forall₂ (fun i x => ∃ sv, M.store_views[i]? = some sv ∧
          sv.read (c.mask (M.get_region i))
            (P.read_shard r (region_intersection (M.get_region i) (P.read_get_region r)))
            o false = .ok x)
        (sched.filter (fun i => !region_is_empty
          (region_intersection (M.get_region i) (P.read_get_region r))))
        (M.read_fanout c r o interruptor sched).acc) := by
  constructor
  · obtain ⟨shards, rs, h1, h2, h3⟩ := read_fanout_order M c r o interruptor sched
      (fanout_t.start [])
    have hacc : (M.read_fanout c r o interruptor sched).acc = rs := by
      simpa [multistore_ptr_t.read_fanout, fanout_t.start] using h1
    refine ⟨shards, h2, by rw [hacc]; exact h3, ?_⟩
    intro hs
    subst hs
    exact ((List.pairwise_lt_range _).sublist (List.filter_sublist _)).sublist h2
  · intro hsched hnp hcontract
    obtain ⟨rs, h1, h2⟩ := read_fanout_responses M c r o interruptor hcontract sched
      (fanout_t.start []) (fun i hi => sched_slot M hsched hi)
      (by simpa [fanout_t.start, sched_length hsched] using hnp)
    have hacc : (M.read_fanout c r o interruptor sched).acc = rs := by
      simpa [multistore_ptr_t.read_fanout, fanout_t.start] using h1
    rw [hacc]; exact h2

/-- Counterexample for C14 as stated: on the two-shard aggregator both shards
meet the request over the keys `1` and `2`; when the task of shard 1
completes first, the answer of store 1 stands before the answer of store 0 in
the response vector. -/
theorem read_responses_not_in_shard_order :
    [1, 0].Perm (List.range toy_multistore.num_stores) ∧
    region_is_empty (region_intersection (toy_multistore.get_region 0)
      (toy_protocol.read_get_region toy_request)) = false ∧
    region_is_empty (region_intersection (toy_multistore.get_region 1)
      (toy_protocol.read_get_region toy_request)) = false ∧
    (∃ sv, toy_multistore.store_views[0]? = some sv ∧
      sv.read (toy_checker.mask (toy_multistore.get_region 0))
        (toy_protocol.read_shard toy_request
          (region_intersection (toy_multistore.get_region 0)
            (toy_protocol.read_get_region toy_request)))
        0 false = .ok ({2} : Finset (Fin 4))) ∧
    (∃ sv, toy_multistore.store_views[1]? = some sv ∧
      sv.read (toy_checker.mask (toy_multistore.get_region 1))
        (toy_protocol.read_shard toy_request
          (region_intersection (toy_multistore.get_region 1)
            (toy_protocol.read_get_region toy_request)))
        0 false = .ok ({1} : Finset (Fin 4))) ∧
    (toy_multistore.read_fanout toy_checker toy_request 0 ⟨none⟩ [1, 0]).acc
      = [({1} : Finset (Fin 4)), {2}] :=
  ⟨by decide, by decide, by decide, ⟨_, rfl, by decide⟩, ⟨_, rfl, by decide⟩, by decide⟩

/-- C13, as amended: in a `send_multistore_backfill` in which every shard
delivers its metainfo, and the delivered maps have pairwise disjoint domains
inside `start_point.get_domain()`, the argument of the call of the caller's
`should_backfill` (there is exactly one call when there is a shard) is the map
initialised over `start_point.get_domain()` and updated with the delivered
maps in the order of arrival; its domain is exactly
`start_point.get_domain()`, and for every shard it agrees with the map that
shard delivered on the domain of that map. -/
theorem should_backfill_gets_merged_metainfo [Fintype κ] (M : multistore_ptr_t P)
    (start_point : region_map_t κ Nat) (f : region_map_t κ P.binary_blob_t → Bool)
    (interruptor : signal_t) (sched : List Nat)
    (metainfo : Nat → region_map_t κ P.binary_blob_t)
    (hsched : sched.Perm (List.range M.num_stores))
    (hdeliver : ∀ (i : Nat) (sv : store_view_t P), M.store_views[i]? = some sv →
      ∀ p, sv.send_backfill_metainfo (start_point.mask (M.get_region i)) p
        = some (metainfo i))
    (hdom : ∀ i, i < M.num_stores → (metainfo i).get_domain ⊆ start_point.get_domain)
    (hdisj : ∀ i j, i < M.num_stores → j < M.num_stores → i ≠ j →
      Disjoint (metainfo i).get_domain (metainfo j).get_domain) :
    ∃ h, (M.send_multistore_backfill_fanout start_point f interruptor sched).acc.helper
        = .ok h ∧
      (0 < M.num_stores → h.invocations.length = 1) ∧
      ∀ arg v, (arg, v) ∈ h.invocations →
        arg = (sched.map metainfo).foldl region_map_t.update
          (region_map_t.init start_point.get_domain P.binary_blob_default) ∧
        arg.get_domain = start_point.get_domain ∧
        ∀ i, i < M.num_stores → ∀ k ∈ (metainfo i).get_domain, arg k = metainfo i k := by
  have hlen := sched_length hsched
  have hfan := backfill_fanout_deliver_always M f start_point interruptor metainfo sched
    (fanout_t.start
      { helper := .ok (create M.num_stores start_point.get_domain), arrived := [] })
    (fun i hi => by
      obtain ⟨sv, hsv⟩ := sched_slot M hsched hi
      exact ⟨sv, hsv, hdeliver i sv hsv⟩)
  have hhelper : (M.send_multistore_backfill_fanout start_point f interruptor sched).acc.helper
      = arrivals f (create M.num_stores start_point.get_domain) (sched.map metainfo) := by
    unfold multistore_ptr_t.send_multistore_backfill_fanout; rw [hfan]; rfl
  by_cases hn : M.num_stores = 0
  · have hs : sched = [] := by
      apply List.eq_nil_of_length_eq_zero; rw [hlen, hn]
    subst hs
    refine ⟨create M.num_stores start_point.get_domain, ?_, ?_, ?_⟩
    · rw [hhelper]; rfl
    · intro h0; rw [hn] at h0; exact absurd h0 (Nat.lt_irrefl 0)
    · intro arg v hmem; simp [create] at hmem
  · have hne : sched.map metainfo ≠ [] := by
      intro h0
      have h1 := congrArg List.length h0
      rw [List.length_map, hlen, List.length_nil] at h1
      exact hn h1
    have harr := arrivals_last f (sched.map metainfo)
      (create (P := P) M.num_stores start_point.get_domain)
      (by simp [create, hlen]) hne
    rw [← hhelper] at harr
    refine ⟨_, harr, ?_, ?_⟩
    · intro _; simp [create]
    · intro arg v hmem
      simp only [create, List.nil_append, List.mem_singleton, Prod.mk.injEq] at hmem
      obtain ⟨harg, _⟩ := hmem
      refine ⟨harg, ?_, ?_⟩
      · rw [harg, foldl_update_domain, get_domain_init]
        intro m hm
        rw [List.mem_map] at hm
        obtain ⟨i, hi, rfl⟩ := hm
        rw [get_domain_init]
        exact hdom i (List.mem_range.mp (hsched.mem_iff.mp hi))
      · intro i hi k hk
        obtain ⟨b, hb⟩ := (mem_get_domain (metainfo i) k).mp hk
        rw [harg, foldl_update_unique k metainfo i sched _ (sched_nodup hsched)
          (sched_mem hsched hi)]
        · simp [region_map_t.update, hb]
        · intro j hj hji
          have hjn : j < M.num_stores := List.mem_range.mp (hsched.mem_iff.mp hj)
          have hd := hdisj i j hi hjn (Ne.symm hji)
          cases hjk : metainfo j k with
          | none => rfl
          | some x =>
            exact absurd ((mem_get_domain (metainfo j) k).mpr ⟨x, hjk⟩)
              (Finset.disjoint_left.mp hd hk)

/-- Witness for C13: the aggregator of two stores that cover one shard each,
shard 1 arriving first. -/
theorem should_backfill_gets_merged_metainfo_witness :
    ([1, 0].Perm (List.range sharded_multistore.num_stores) ∧
      (∀ (i : Nat) (sv : store_view_t toy_protocol),
        sharded_multistore.store_views[i]? = some sv →
        ∀ p, sv.send_backfill_metainfo
          (toy_start_point.mask (sharded_multistore.get_region i)) p
          = some (sharded_delivered i)) ∧
      (∀ i, i < sharded_multistore.num_stores →
        (sharded_delivered i).get_domain ⊆ toy_start_point.get_domain) ∧
      ∀ i j, i < sharded_multistore.num_stores → j < sharded_multistore.num_stores → i ≠ j →
        Disjoint (sharded_delivered i).get_domain (sharded_delivered j).get_domain) ∧
    ∃ h, (sharded_multistore.send_multistore_backfill_fanout toy_start_point (fun _ => true)
        ⟨none⟩ [1, 0]).acc.helper = .ok h ∧
      (0 < sharded_multistore.num_stores → h.invocations.length = 1) ∧
      ∀ arg v, (arg, v) ∈ h.invocations →
        arg = ([1, 0].map sharded_delivered).foldl region_map_t.update
          (region_map_t.init toy_start_point.get_domain toy_protocol.binary_blob_default) ∧
        arg.get_domain = toy_start_point.get_domain ∧
        ∀ i, i < sharded_multistore.num_stores →
          ∀ k ∈ (sharded_delivered i).get_domain, arg k = sharded_delivered i k :=
  have hdom : ∀ i, i < sharded_multistore.num_stores →
      (sharded_delivered i).get_domain ⊆ toy_start_point.get_domain :=
    fun _ _ k _ => (mem_get_domain _ k).mpr ⟨_, rfl⟩
  have hdisj : ∀ i j, i < sharded_multistore.num_stores →
      j < sharded_multistore.num_stores → i ≠ j →
      Disjoint (sharded_delivered i).get_domain (sharded_delivered j).get_domain :=
    fun i j hi hj hij => Finset.disjoint_of_subset_left (sharded_delivered_domain i)
      (Finset.disjoint_of_subset_right (sharded_delivered_domain j)
        (toy_protocol.subspace_disjoint 2 i j hi hj hij))
  ⟨⟨by decide, sharded_send_backfill_metainfo, hdom, hdisj⟩,
    should_backfill_gets_merged_metainfo sharded_multistore toy_start_point (fun _ => true)
      ⟨none⟩ [1, 0] sharded_delivered (by decide) sharded_send_backfill_metainfo hdom hdisj⟩

/-- Counterexample for C13 as stated: on the two-shard aggregator whose stores
both deliver a metainfo over all keys (blob `5` from shard 0, blob `7` from
shard 1), with shard 1 arriving first, the argument of `should_backfill` has
blob `5` at key `0`, where the map that shard 1 delivered has blob `7`. -/
theorem should_backfill_argument_last_arrival_wins :
    [1, 0].Perm (List.range toy_multistore.num_stores) ∧
    (∀ (i : Nat) (sv : store_view_t toy_protocol), toy_multistore.store_views[i]? = some sv →
      ∀ p, sv.send_backfill_metainfo (toy_start_point.mask (toy_multistore.get_region i)) p
        = some (toy_delivered i)) ∧
    (0 : Fin 4) ∈ (toy_delivered 1).get_domain ∧
    toy_delivered 1 0 = some 7 ∧
    ∃ h arg v, (toy_multistore.send_multistore_backfill_fanout toy_start_point
        (fun _ => true) ⟨none⟩ [1, 0]).acc.helper = .ok h ∧
      h.invocations = [(arg, v)] ∧ arg 0 = some 5 :=
  ⟨by decide, toy_send_backfill_metainfo, (mem_get_domain _ _).mpr ⟨7, rfl⟩, rfl,
    ⟨_, _, _, rfl, rfl, rfl⟩⟩

/-- C11, as amended: in the aggregator that the first constructor makes from
the views `views`, the mask of the subview at slot `i` is
`region ∩ views[i].get_region()`; it is `get_region(i)` exactly when that
intersection is `region ∩ cpu_sharding_subspace(i, N)`.  The narrowing
constructor keeps the invariant: when every slot of `inner` has the mask
`inner.get_region(i)` and `r` lies inside the region of `inner`, every slot of
the narrowed aggregator has the mask `get_region(i)` of the narrowed
aggregator. -/
theorem subview_masks_after_construction (views : List (store_view_t P)) (n : Nat)
    (region : Finset κ) (inner : multistore_ptr_t P) (r : Finset κ) :
    (∀ (i : Nat) (sv : store_view_t P),
      (multistore_ptr_t.create views n region).store_views[i]? = some sv →
      ∃ v, views[i]? = some v ∧ i < n ∧
        sv.get_region = region_intersection region v.get_region ∧
        (sv.get_region = (multistore_ptr_t.create views n region).get_region i ↔
          region_intersection region v.get_region =
            region_intersection region (P.cpu_sharding_subspace i
              (multistore_ptr_t.create views n region).num_stores))) ∧
    (r ⊆ inner.region →
      (∀ (i : Nat) (sv : store_view_t P), inner.store_views[i]? = some sv →
        sv.get_region = inner.get_region i) →
      ∃ M2, inner.narrow r = .ok M2 ∧
        ∀ (i : Nat) (sv : store_view_t P), M2.store_views[i]? = some sv →
          sv.get_region = M2.get_region i) := by
  constructor
  · intro i sv hsv
    simp only [multistore_ptr_t.create, initialize_store_views, List.getElem?_map,
      List.getElem?_take] at hsv
    by_cases hi : i < n
    · simp only [hi, if_true] at hsv
      cases hv : views[i]? with
      | none => rw [hv] at hsv; simp at hsv
      | some v =>
        rw [hv] at hsv
        simp only [Option.map_some', Option.some.injEq] at hsv
        subst hsv
        refine ⟨v, rfl, hi, rfl, ?_⟩
        simp [do_initialize_slot, store_view_t.get_region, multistore_ptr_t.get_region,
          multistore_ptr_t.create]
    · simp [hi] at hsv
  · intro hr hI1
    have hnarrow : inner.narrow r =
        .ok { store_views := initialize_store_views inner.store_views r, region := r } := by
      simp [multistore_ptr_t.narrow, region_is_superset, hr]
    refine ⟨_, hnarrow, ?_⟩
    intro i sv hsv
    simp only [initialize_store_views, List.getElem?_map] at hsv
    cases hv : inner.store_views[i]? with
    | none => rw [hv] at hsv; simp at hsv
    | some v =>
      rw [hv] at hsv
      simp only [Option.map_some', Option.some.injEq] at hsv
      subst hsv
      have h1 := hI1 i v hv
      have hsub : (do_initialize_slot r v).get_region = region_intersection r v.get_region :=
        rfl
      rw [hsub, h1]
      simp only [multistore_ptr_t.get_region, multistore_ptr_t.num_stores,
        initialize_store_views, List.length_map, region_intersection]
      ext k
      simp only [Finset.mem_inter]
      constructor
      · intro h; exact ⟨h.1, h.2.2⟩
      · intro h; exact ⟨h.1, hr h.1, h.2⟩

/-- Counterexample for C11 as stated: the two-shard aggregator is made by the
first constructor from two stores that both cover all keys, so its region lies
inside the join of their regions; the subview at slot 0 has the mask of all
keys, while `get_region(0)` is the set of the keys of shard 0. -/
theorem subview_mask_differs_from_get_region :
    toy_multistore = multistore_ptr_t.create
      [.store (toy_store 5), .store (toy_store 7)] 2 Finset.univ ∧
    (Finset.univ : Finset (Fin 4)) ⊆
      (store_view_t.store (toy_store 5)).get_region ∪
        (store_view_t.store (toy_store 7)).get_region ∧
    ∃ sv, toy_multistore.store_views[0]? = some sv ∧
      sv.get_region = Finset.univ ∧
      toy_multistore.get_region 0 = toy_subspace 0 2 ∧
      sv.get_region ≠ toy_multistore.get_region 0 :=
  ⟨rfl, by decide, _, rfl, by decide, by decide, by decide⟩

/-- Witness for C11: the aggregator of two stores that cover one shard each
has the invariant, and so has its narrowing to the keys `1` and `2`. -/
theorem subview_masks_after_construction_witness :
    toy_request ⊆ sharded_multistore.region ∧
    (∀ (i : Nat) (sv : store_view_t toy_protocol),
      sharded_multistore.store_views[i]? = some sv →
      sv.get_region = sharded_multistore.get_region i) ∧
    ∃ M2, sharded_multistore.narrow toy_request = .ok M2 ∧
      ∀ (i : Nat) (sv : store_view_t toy_protocol), M2.store_views[i]? = some sv →
        sv.get_region = M2.get_region i :=
  have hthm := subview_masks_after_construction
    [.store (toy_sharded_store 0 5), .store (toy_sharded_store 1 7)] 2
    (Finset.univ : Finset (Fin 4)) sharded_multistore toy_request
  have hI1 : ∀ (i : Nat) (sv : store_view_t toy_protocol),
      sharded_multistore.store_views[i]? = some sv →
      sv.get_region = sharded_multistore.get_region i := by
    intro i sv h
    obtain ⟨v, hv, _, _, hiff⟩ := hthm.1 i sv h
    apply hiff.mpr
    rcases i with _ | _ | i
    · simp at hv
      subst hv
      decide
    · simp at hv
      subst hv
      decide
    · simp at hv
  ⟨by decide, hI1, hthm.2 (by decide) hI1⟩

/-- C12, as amended.  A call of `get_all_metainfos`, `set_all_metainfos`,
`read`, `write`, `send_multistore_backfill`, `receive_backfill` or
`reset_all_data` with a token count other than the number of stores, a
`send_multistore_backfill` whose start point has a domain outside the region
of the aggregator, and a `receive_backfill` whose chunk has a region outside
it, abort without any call on a store and without releasing a token; the
narrowing constructor aborts (on its `rassert`) for a region outside the
region of `inner`.  The first constructor makes no check: for every region it
builds the aggregator whose slot `i` is the subview of `views[i]` over
`region ∩ views[i].get_region()`. -/
theorem precondition_violations_abort [Fintype κ] (M : multistore_ptr_t P)
    (c : metainfo_checker_t κ) (nm : region_map_t κ P.binary_blob_t) (r : P.read_t)
    (w : P.write_t) (t o : Nat) (chunk : P.backfill_chunk_t) (subregion : Finset κ)
    (sp : region_map_t κ Nat) (f : region_map_t κ P.binary_blob_t → Bool)
    (interruptor : signal_t) (sched : List Nat) (overlap : Nat → Bool) (tokens : Nat)
    (r2 : Finset κ)
    (views : List (store_view_t P)) (n : Nat) :
    (tokens ≠ M.num_stores →
      (M.get_all_metainfos o tokens interruptor sched = .aborted ∧
        M.get_all_metainfos_calls o tokens interruptor sched = []) ∧
      (M.set_all_metainfos nm o tokens interruptor sched = (M, .aborted) ∧
        M.set_all_metainfos_calls nm o tokens interruptor sched = []) ∧
      (M.read c r o tokens interruptor sched = .aborted ∧
        M.read_calls c r o tokens interruptor sched = []) ∧
      (M.write c nm w t o tokens interruptor sched overlap = .aborted ∧
        M.write_calls c nm w t o tokens interruptor sched overlap = []) ∧
      (M.send_multistore_backfill sp f tokens interruptor sched = .aborted ∧
        M.send_multistore_backfill_calls sp f tokens interruptor sched = []) ∧
      (M.receive_backfill chunk tokens interruptor sched = .aborted ∧
        M.receive_backfill_calls chunk tokens interruptor sched = []) ∧
      (M.reset_all_data subregion nm tokens interruptor sched = .aborted ∧
        M.reset_all_data_calls subregion nm tokens interruptor sched = [])) ∧
    (¬ sp.get_domain ⊆ M.region →
      M.send_multistore_backfill sp f tokens interruptor sched = .aborted ∧
      M.send_multistore_backfill_calls sp f tokens interruptor sched = []) ∧
    (¬ P.chunk_get_region chunk ⊆ M.region →
      M.receive_backfill chunk tokens interruptor sched = .aborted ∧
      M.receive_backfill_calls chunk tokens interruptor sched = []) ∧
    (¬ r2 ⊆ M.region → M.narrow r2 = .aborted) ∧
    (multistore_ptr_t.create views n r2 =
      { store_views := (views.take n).map
          (fun v => store_view_t.subview v (region_intersection r2 v.get_region)),
        region := r2 }) := by
  refine ⟨?_, ?_, ?_, ?_, rfl⟩
  · intro ht
    have ht2 : M.num_stores ≠ tokens := fun h => ht h.symm
    refine ⟨⟨?_, ?_⟩, ⟨?_, ?_⟩, ⟨?_, ?_⟩, ⟨?_, ?_⟩, ⟨?_, ?_⟩, ⟨?_, ?_⟩, ⟨?_, ?_⟩⟩
    · simp [multistore_ptr_t.get_all_metainfos, ht2]
    · simp [multistore_ptr_t.get_all_metainfos_calls, ht2]
    · simp [multistore_ptr_t.set_all_metainfos, ht]
    · simp [multistore_ptr_t.set_all_metainfos_calls, ht]
    · simp [multistore_ptr_t.read, ht2]
    · simp [multistore_ptr_t.read_calls, ht2]
    · simp [multistore_ptr_t.write, ht2]
    · simp [multistore_ptr_t.write_calls, ht2]
    · simp [multistore_ptr_t.send_multistore_backfill, ht2]
    · simp [multistore_ptr_t.send_multistore_backfill_calls, ht2]
    · simp [multistore_ptr_t.receive_backfill, ht2]
    · simp [multistore_ptr_t.receive_backfill_calls, ht2]
    · simp [multistore_ptr_t.reset_all_data, ht2]
    · simp [multistore_ptr_t.reset_all_data_calls, ht2]
  · intro hsp
    have hsup : region_is_superset M.get_multistore_joined_region sp.get_domain = false := by
      simp [region_is_superset, multistore_ptr_t.get_multistore_joined_region, hsp]
    constructor
    · simp only [multistore_ptr_t.send_multistore_backfill, hsup]
      split <;> simp
    · simp only [multistore_ptr_t.send_multistore_backfill_calls, hsup]
      split <;> simp
  · intro hch
    have hsup : region_is_superset M.get_multistore_joined_region (P.chunk_get_region chunk)
        = false := by
      simp [region_is_superset, multistore_ptr_t.get_multistore_joined_region, hch]
    constructor
    · simp only [multistore_ptr_t.receive_backfill, hsup]
      split <;> simp
    · simp only [multistore_ptr_t.receive_backfill_calls, hsup]
      split <;> simp
  · intro hr2
    simp [multistore_ptr_t.narrow, region_is_superset, hr2]

/-- Counterexample for C12 as stated: the first constructor, given the one
store over the keys of shard 0 and the region of all keys, which is not
inside the region of that store, does not abort; it makes an aggregator whose
slot has the mask of the store, and a later `get_all_metainfos` calls the
store and returns. -/
theorem first_constructor_accepts_region_outside_stores :
    ¬ ((Finset.univ : Finset (Fin 4)) ⊆
      (store_view_t.store (toy_sharded_store 0 5)).get_region) ∧
    clipped_multistore =
      multistore_ptr_t.create [.store (toy_sharded_store 0 5)] 1 Finset.univ ∧
    clipped_multistore.num_stores = 1 ∧
    (∃ sv, clipped_multistore.store_views[0]? = some sv ∧
      sv.get_region = toy_subspace 0 2) ∧
    clipped_multistore.get_all_metainfos_calls 0 1 ⟨none⟩ [0]
      = [(0, store_call_t.get_metainfo 0)] ∧
    ∃ m, clipped_multistore.get_all_metainfos 0 1 ⟨none⟩ [0] = .ok m :=
  ⟨by decide, rfl, rfl, ⟨_, rfl, by decide⟩, rfl, ⟨_, rfl⟩⟩

/-- Witness for C12: the aggregator of two stores over the keys `1` and `2`,
called with three tokens, with a start point and a chunk over all keys, and
narrowed to all keys. -/
theorem precondition_violations_abort_witness :
    (3 ≠ small_multistore.num_stores ∧
      ¬ toy_start_point.get_domain ⊆ small_multistore.region ∧
      ¬ toy_protocol.chunk_get_region (Finset.univ : Finset (Fin 4))
        ⊆ small_multistore.region ∧
      ¬ (Finset.univ : Finset (Fin 4)) ⊆ small_multistore.region) ∧
    (small_multistore.read toy_checker toy_request 0 3 ⟨none⟩ [0, 1] = .aborted ∧
      small_multistore.read_calls toy_checker toy_request 0 3 ⟨none⟩ [0, 1] = []) ∧
    (small_multistore.send_multistore_backfill toy_start_point (fun _ => true) 2 ⟨none⟩
        [0, 1] = .aborted ∧
      small_multistore.send_multistore_backfill_calls toy_start_point (fun _ => true) 2
        ⟨none⟩ [0, 1] = []) ∧
    (small_multistore.receive_backfill (Finset.univ : Finset (Fin 4)) 2 ⟨none⟩ [0, 1]
        = .aborted ∧
      small_multistore.receive_backfill_calls (Finset.univ : Finset (Fin 4)) 2 ⟨none⟩ [0, 1]
        = []) ∧
    small_multistore.narrow (Finset.univ : Finset (Fin 4)) = .aborted :=
  have h3 := precondition_violations_abort small_multistore toy_checker toy_blobs
    toy_request toy_request 0 0 (Finset.univ : Finset (Fin 4)) toy_request toy_start_point
    (fun _ => true) ⟨none⟩ [0, 1] (fun _ => true) 3 Finset.univ [] 0
  have h2 := precondition_violations_abort small_multistore toy_checker toy_blobs
    toy_request toy_request 0 0 (Finset.univ : Finset (Fin 4)) toy_request toy_start_point
    (fun _ => true) ⟨none⟩ [0, 1] (fun _ => true) 2 Finset.univ [] 0
  ⟨⟨by decide, by decide, by decide, by decide⟩,
    (h3.1 (by decide)).2.2.1, h2.2.1 (by decide), h2.2.2.1 (by decide),
    h2.2.2.2.1 (by decide)⟩

/-- C6, at its failing input: a `write` over the keys `1` and `2` on the
aggregator of two stores that live on the threads 0 and 1, no store raising
and the interruptor never pulsed.  Both shards meet the request and both
stores are called, task 0 ends first, and the `push_back` of task 1, on the
other thread, starts before that of task 0 has ended: `write` returns
normally and `multistore_unshard` gets the one response of shard 1, the
response of shard 0 is lost.  When the two `push_back`s do not overlap both
responses are there, and `read`, which appends on the thread of the caller,
hands over both on the same input. -/
theorem write_loses_response_when_appends_overlap :
    two_thread_multistore.store_views.map store_view_t.home_thread = [0, 1] ∧
    (List.range two_thread_multistore.num_stores).filter (fun i => !region_is_empty
      (region_intersection (two_thread_multistore.get_region i)
        (toy_protocol.write_get_region toy_request))) = [0, 1] ∧
    (two_thread_multistore.write_fanout toy_checker toy_blobs toy_request 0 0 ⟨none⟩
      [0, 1] (fun _ => true)).log.map Prod.fst = [0, 1] ∧
    (two_thread_multistore.write_fanout toy_checker toy_blobs toy_request 0 0 ⟨none⟩
      [0, 1] (fun _ => true)).acc.responses = [{1}] ∧
    two_thread_multistore.write toy_checker toy_blobs toy_request 0 0 2 ⟨none⟩
      [0, 1] (fun _ => true) = .ok {1} ∧
    (two_thread_multistore.write_fanout toy_checker toy_blobs toy_request 0 0 ⟨none⟩
      [0, 1] (fun _ => false)).acc.responses = [{2}, {1}] ∧
    (two_thread_multistore.read_fanout toy_checker toy_request 0 ⟨none⟩ [0, 1]).acc
      = [{2}, {1}] := by
  refine ⟨?_, ?_, ?_, ?_, ?_, ?_, ?_⟩ <;> decide

/-- Counterexample for C8 as stated.  The aggregator over all four keys of two
stores over the keys `0, 1` and `2, 3` meets the precondition of the
constructor, its shards being the even and the odd keys; its stores hold what
is set on them and nothing is interrupted.  After `set_all_metainfos` of the
map that gives every key the blob `9`, `get_all_metainfos` returns the default
version `0` on the keys `1` and `2`, where the round trip promises the version
`10`.  The aggregator of no store over all four keys returns the default
version on every key. -/
theorem round_trip_fails_on_misaligned_stores :
    ((Finset.univ : Finset (Fin 4)) ⊆ ({0, 1} : Finset (Fin 4)) ∪ {2, 3} ∧
      misaligned_multistore.region ⊆ toy_blobs.get_domain ∧
      (misaligned_multistore.set_all_metainfos toy_blobs 0 2 ⟨none⟩ [0, 1]).2 = .ok () ∧
      (∃ ret, (misaligned_multistore.set_all_metainfos toy_blobs 0 2 ⟨none⟩
          [0, 1]).1.get_all_metainfos 0 2 ⟨none⟩ [0, 1] = .ok ret ∧
        ret 0 = some 10 ∧ ret 1 = some 0 ∧ ret 2 = some 0 ∧ ret 3 = some 10) ∧
      region_map_transform (toy_blobs.mask misaligned_multistore.region)
        toy_protocol.blob_get 1 = some 10 ∧
      (misaligned_multistore.set_all_metainfos toy_blobs 0 2 ⟨none⟩
          [0, 1]).1.get_all_metainfos 0 2 ⟨none⟩ [0, 1] ≠
        .ok (region_map_transform (toy_blobs.mask misaligned_multistore.region)
          toy_protocol.blob_get)) ∧
    (storeless_multistore.region ⊆ toy_blobs.get_domain ∧
      (storeless_multistore.set_all_metainfos toy_blobs 0 0 ⟨none⟩ []).2 = .ok () ∧
      (∃ ret, (storeless_multistore.set_all_metainfos toy_blobs 0 0 ⟨none⟩
          []).1.get_all_metainfos 0 0 ⟨none⟩ [] = .ok ret ∧ ret 0 = some 0) ∧
      region_map_transform (toy_blobs.mask storeless_multistore.region)
        toy_protocol.blob_get 0 = some 10) := by
  have h1 : (misaligned_multistore.set_all_metainfos toy_blobs 0 2 ⟨none⟩
      [0, 1]).1.get_all_metainfos 0 2 ⟨none⟩ [0, 1] = .ok _ :=
    (get_all_metainfos_eq _ 0 ⟨none⟩ [0, 1]).2
  have h2 : (storeless_multistore.set_all_metainfos toy_blobs 0 0 ⟨none⟩
      []).1.get_all_metainfos 0 0 ⟨none⟩ [] = .ok _ :=
    (get_all_metainfos_eq _ 0 ⟨none⟩ []).2
  refine ⟨⟨by decide, by decide, by decide, ⟨_, h1, rfl, rfl, rfl, rfl⟩, rfl, ?_⟩,
    by decide, by decide, ⟨_, h2, rfl⟩, rfl⟩
  rw [h1]
  intro heq
  have h3 := congrFun (outcome.ok.inj heq) 1
  exact absurd h3 (by decide)

end claims

end Multistore
